import Mathlib

/-!
# The recipe framework of `lab.cpp`

A shallow embedding of the step registry, the recipe, the interpreter `run`,
the inline code generator `create_code` and the function code generator
`create_code_func` of `src/lab.cpp`, followed by the properties proved about
them.

Conventions of the embedding:

* a `std::vector` is a `List`, in element order;
* a `const char*` that the code compares with `nullptr` is an `Option String`
  (`none` is the null pointer); a `Char` of a string stands for one `char` of
  the C string;
* a `std::function` that the code compares with `nullptr` is an `Option` of a
  function (`none` is the empty `std::function`);
* `unsigned int` values are natural numbers reduced modulo `2^32` where the
  code converts to `unsigned int`;
* a function that can throw or run into undefined behaviour returns
  `Except Fault _`;
* a `float` is its bit pattern, and every operation on `float` values (the
  renderings, the conversions, the arithmetic and the comparison) is a
  parameter;
* text written to an output stream is the `String` of everything written.
-/

namespace Lab

/-! ## Basic types -/

/-- Line terminator `NL` of the source. -/
def NL : String := "\n"

/-- Tabulator `TAB` of the source. -/
def TAB : String := "\t"

/-- Ways in which a call can leave the defined behaviour of the program. -/
inductive Fault where
  /-- A null `const char*` is read as a C string. -/
  | null_string
  /-- An empty `std::function` is invoked (`std::bad_function_call`). -/
  | bad_function_call
  /-- The `value()` of an empty `std::optional` is taken. -/
  | bad_optional_access
deriving DecidableEq, Repr

/-- A `float`, identified by its 32 bit pattern: the framework only stores,
copies and prints these values, and the example steps compute with them
through operations that the embedding takes as parameters. -/
structure CFloat where
  bits : Nat
deriving DecidableEq, Repr

/-- The sign of `std::strcmp` on the characters of two C strings: the first
differing character decides (compared as `unsigned char`), a proper initial
segment is smaller. -/
def strcmp_chars : List Char → List Char → Int
  | [], [] => 0
  | [], _ :: _ => -1
  | _ :: _, [] => 1
  | a :: as, b :: bs =>
    if a.toNat < b.toNat then -1
    else if b.toNat < a.toNat then 1
    else strcmp_chars as bs

/-- The function `std::strcmp` (sign of the result). -/
def strcmp (a b : String) : Int := strcmp_chars a.toList b.toList

/-- Comparator `check_c_char`: `std::strcmp(a, b) < 0`. -/
def check_c_char (a b : String) : Bool := decide (strcmp a b < 0)

/-! ## `Conf`: a `std::map<const char*, float, check_c_char>`

The map is represented by the sequence of its entries in iteration order. The
operations walk that sequence the way the tree operations of `std::map` use
the comparator: a position is found with `check_c_char` alone, and two keys
are the same entry when neither is smaller than the other. -/

/-- The entries of a `Conf` in iteration order. -/
abbrev Conf := List (String × CFloat)

/-- Assignment `conf[id] = v` (`std::map::operator[]` followed by the
assignment): the entry is inserted before the first key that is not smaller
than `id`, unless that key is equivalent to `id`, whose value is overwritten. -/
def Conf.assign : Conf → String → CFloat → Conf
  | [], id, v => [(id, v)]
  | (k, w) :: rest, id, v =>
    if check_c_char k id then (k, w) :: Conf.assign rest id v
    else if check_c_char id k then (id, v) :: (k, w) :: rest
    else (k, v) :: rest

/-- Lookup `conf.find(id)`: the value at the first key that is not smaller
than `id`, when `id` is not smaller than that key either. -/
def Conf.find : Conf → String → Option CFloat
  | [], _ => none
  | (k, w) :: rest, id =>
    if check_c_char k id then Conf.find rest id
    else if check_c_char id k then none
    else some w

/-- Method `Conf::get_value<T>`: the stored value converted to `T`, or `ref`. -/
def Conf.get_value {T : Type} (cast : CFloat → T) (c : Conf) (id : String) (ref : T) : T :=
  match Conf.find c id with
  | some v => cast v
  | none => ref

/-- List of source code lines. -/
abbrev CodeLines := List String

/-- Domain state `Model`. -/
structure Model where
  _data : List CFloat := []
  _res : CFloat := ⟨0⟩
deriving DecidableEq, Repr

/-- Method `Model::setup_code`. -/
def Model.setup_code (code : CodeLines) : CodeLines :=
  (code ++ ["std::vector<float> data;"]) ++ ["auto res = .0f;"]

/-- Method `Model::cleanup_code`. -/
def Model.cleanup_code (code : CodeLines) : CodeLines :=
  (code ++ ["data.clear();"]) ++ ["data.shrink_to_fit();"]

/-- Information on the generated code. -/
structure CodeInfo where
  needs_scope : Bool := false
deriving DecidableEq, Repr

/-- Information on the specific step. -/
structure StepInfo where
  always_same_code : Bool := false
  returns_stop : Bool := false
  stop_variable : Option String := none
deriving DecidableEq, Repr

/-- What one call of an executor `bool(const Conf&, Model&)` does: its return
value, the model it leaves behind and the text it wrote to `std::cout`. -/
structure ExecResult where
  ret : Bool
  model : Model
  cout : String
deriving DecidableEq, Repr

/-- A step in a recipe: name, describer, executor and emitter. The describer
and the emitter update the records they are handed by reference. -/
structure RecipeStep where
  _name : Option String
  _info : Option (StepInfo → StepInfo)
  _execute : Option (Conf → Model → ExecResult)
  _code : Option (Conf → CodeLines → CodeInfo → CodeLines × CodeInfo)

/-! ## Registry -/

/-- A `const RecipeStep*` into the vector of a registry: the position of the
element and the element it points to. -/
structure StepPtr where
  index : Nat
  deref : RecipeStep

/-- Registry to store `RecipeStep` objects. -/
structure Registry where
  _steps : List RecipeStep := []

/-- Method `Registry::get_count`: the size converted to `unsigned int`. -/
def Registry.get_count (r : Registry) : Nat := r._steps.length % 2 ^ 32

/-- Method `Registry::get_step(unsigned int)`. -/
def Registry.get_step (r : Registry) (index : Nat) : Option StepPtr :=
  if h : index < r._steps.length then some ⟨index, r._steps[index]⟩
  else none

/-- The loop of `Registry::get_step(const char*)` over the elements from
position `pos` on. Comparing a null name is outside defined behaviour. -/
def Registry.get_step_scan : List RecipeStep → Nat → String → Except Fault (Option StepPtr)
  | [], _, _ => .ok none
  | s :: rest, pos, id =>
    match s._name with
    | none => .error Fault.null_string
    | some n =>
      if strcmp n id = 0 then .ok (some ⟨pos, s⟩)
      else Registry.get_step_scan rest (pos + 1) id

/-- Method `Registry::get_step(const char*)`. -/
def Registry.get_step_by_name (r : Registry) (id : String) : Except Fault (Option StepPtr) :=
  Registry.get_step_scan r._steps 0 id

/-- Method `Registry::reg`: `emplace_back` of the step built from the arguments. -/
def Registry.reg (r : Registry) (s : RecipeStep) : Registry :=
  { _steps := r._steps ++ [s] }

/-- The loop of `Registry::validate`. -/
def Registry.validate_scan : List RecipeStep → Bool
  | [] => true
  | s :: rest =>
    if s._name.isNone then false
    else if s._info.isNone then false
    else if s._execute.isNone then false
    else if s._code.isNone then false
    else Registry.validate_scan rest

/-- Method `Registry::validate`. -/
def Registry.validate (r : Registry) : Bool := Registry.validate_scan r._steps

/-! ## Recipe -/

/-- Instance of a `RecipeStep`, storing an additional `Conf`. The step pointer
is represented by the (immutable) step it points to. -/
structure RecipeStepInstance where
  _step : RecipeStep
  _config : Conf

/-- Method `RecipeStepInstance::execute`. -/
def RecipeStepInstance.execute (s : RecipeStepInstance) (m : Model) : Except Fault ExecResult :=
  match s._step._execute with
  | none => .error Fault.bad_function_call
  | some f => .ok (f s._config m)

/-- Method `RecipeStepInstance::make_code`. -/
def RecipeStepInstance.make_code (s : RecipeStepInstance) (code : CodeLines) (info : CodeInfo) :
    Except Fault (CodeLines × CodeInfo) :=
  match s._step._code with
  | none => .error Fault.bad_function_call
  | some f => .ok (f s._config code info)

/-- Method `RecipeStepInstance::set_config`. -/
def RecipeStepInstance.set_config (s : RecipeStepInstance) (id : String) (v : CFloat) :
    RecipeStepInstance :=
  { s with _config := Conf.assign s._config id v }

/-- Recipe: the list of `RecipeStepInstance` objects. -/
structure Recipe where
  _steps : List RecipeStepInstance := []

/-- Method `Recipe::count`: the size converted to `unsigned int`. -/
def Recipe.count (r : Recipe) : Nat := r._steps.length % 2 ^ 32

/-- Method `Recipe::add_step`: the recipe after the `push_back`, and the
returned `count() - 1u` (an `unsigned int` subtraction). -/
def Recipe.add_step (r : Recipe) (step : RecipeStep) : Recipe × Nat :=
  let r1 : Recipe := { _steps := r._steps ++ [{ _step := step, _config := [] }] }
  (r1, (r1.count + 2 ^ 32 - 1) % 2 ^ 32)

/-- Method `Recipe::get`: the instance the returned pointer points to. -/
def Recipe.get (r : Recipe) (index : Nat) : Option RecipeStepInstance :=
  if h : index < r._steps.length then some r._steps[index]
  else none

/-- Method `Recipe::all`. -/
def Recipe.all (r : Recipe) : List RecipeStepInstance := r._steps

/-- The statement `recipe.get(index).value()->set_config(key, v)` of
`add_step_configure`: the recipe afterwards, and the exception thrown, if any.
The instance that `get` points to is updated in place; `value()` throws when
`get` returned not-found. -/
def Recipe.configure (r : Recipe) (index : Nat) (key : String) (v : CFloat) :
    Recipe × Option Fault :=
  match r.get index with
  | none => (r, some Fault.bad_optional_access)
  | some s => ({ _steps := r._steps.set index (s.set_config key v) }, none)

/-- Method `Recipe::store`, the loop over the instances: `file_stream` is the
text written so far. Writing a null name is outside defined behaviour.
`to_string` is `std::to_string(float)`. -/
def Recipe.store_loop (to_string : CFloat → String) :
    List RecipeStepInstance → String → Except Fault String
  | [], file_stream => .ok file_stream
  | s :: rest, file_stream =>
    match s._step._name with
    | none => .error Fault.null_string
    | some name =>
      let file_stream := file_stream ++ name ++ NL
      let file_stream :=
        if !s._config.isEmpty then
          s._config.foldl
            (fun fs kv => fs ++ "-->" ++ kv.1 ++ ":" ++ to_string kv.2 ++ NL) file_stream
        else file_stream
      Recipe.store_loop to_string rest file_stream

/-- Method `Recipe::store`: the text written to the (fresh) file. -/
def Recipe.store (to_string : CFloat → String) (r : Recipe) : Except Fault String :=
  Recipe.store_loop to_string r._steps ""

/-! ## The interpreter `run` -/

/-- One call that `run` makes: to one of its three callbacks, or to the
executor of the instance at a position of the recipe (with what the executor
returned and wrote). -/
inductive Call where
  | progress (i : Nat) (name : Option String)
  | print_key (key : String) (v : CFloat)
  | execute (pos : Nat) (ret : Bool) (cout : String)
  | print_time (diff : Int)
deriving DecidableEq, Repr

/-- How `run` ended: the recipe was exhausted, an executor returned `false`,
or a call threw. -/
inductive Status where
  | finished
  | stopped
  | threw (f : Fault)
deriving DecidableEq, Repr

/-- What `run` did: the calls it made, in order, the local `model` when it
ended, and how it ended. -/
structure RunResult where
  calls : List Call
  model : Model
  status : Status
deriving DecidableEq, Repr

/-- The loop of `run`. `i` is the counter `i`, which is also the position of
the current instance; it is an `int` (it does not overflow in a recipe of
fewer than `2^31` instances) and the callback receives it converted to
`unsigned int`. `model` is the local `model`, and `clock tick` the value that
the next call of `std::chrono::system_clock::now()` returns, in nanoseconds. -/
def run_loop (clock : Nat → Int) : List RecipeStepInstance → Nat → Nat → Model → RunResult
  | [], _, _, model => ⟨[], model, Status.finished⟩
  | s :: rest, i, tick, model =>
    let before : List Call :=
      Call.progress (i % 2 ^ 32) s._step._name ::
        s._config.map (fun kv => Call.print_key kv.1 kv.2)
    match s.execute model with
    | .error f => ⟨before, model, Status.threw f⟩
    | .ok res =>
      if !res.ret then
        ⟨before ++ [Call.execute i res.ret res.cout], res.model, Status.stopped⟩
      else
        let diff := clock (tick + 1) - clock tick
        let later := run_loop clock rest (i + 1) (tick + 2) res.model
        ⟨before ++ [Call.execute i res.ret res.cout, Call.print_time diff] ++ later.calls,
          later.model, later.status⟩

/-- Function `run`: the loop on a fresh `Model`. -/
def run (clock : Nat → Int) (recipe : Recipe) : RunResult :=
  run_loop clock recipe.all 0 0 {}

/-! ## The inline code generator `create_code` -/

/-- The body of the loop of `create_code` for the instance `s`: `stream` is
the text written so far, `cleanup_code` the cleanup lines, `show_float` the
rendering of a `float` by `operator<<`. -/
def create_code_step (show_float : CFloat → String) (cleanup_code : CodeLines)
    (s : RecipeStepInstance) (stream : String) : Except Fault String :=
  match s.make_code [] {} with
  | .error f => .error f
  | .ok (code, info) =>
    let stream := stream ++ "\n"
    let stream := if info.needs_scope then stream ++ "\t\x7b" ++ NL else stream
    let tabs := if info.needs_scope then "\t\t" else "\t"
    match s._step._name with
    | none => .error Fault.null_string
    | some name =>
      let stream := stream ++ tabs ++ "// " ++ name ++ NL
      let stream := s._config.foldl
        (fun st kv => st ++ tabs ++ "// " ++ kv.1 ++ " : " ++ show_float kv.2 ++ NL) stream
      let stream := code.foldl (fun st line => st ++ tabs ++ line ++ NL) stream
      match s._step._info with
      | none => .error Fault.bad_function_call
      | some describe =>
        let stepInfo := describe {}
        if stepInfo.returns_stop then
          match stepInfo.stop_variable with
          | none => .error Fault.null_string
          | some stop_variable =>
            let stream := stream ++ tabs ++ ("if (!" ++ stop_variable ++ ") \x7b") ++ NL
            let stream := cleanup_code.foldl
              (fun st line => st ++ tabs ++ "\t" ++ line ++ NL) stream
            let stream := stream ++ tabs ++ "\treturn 0;" ++ NL
            let stream := stream ++ tabs ++ "\x7d" ++ NL
            .ok (if info.needs_scope then stream ++ "\t\x7d" ++ NL else stream)
        else
          .ok (if info.needs_scope then stream ++ "\t\x7d" ++ NL else stream)

/-- The loop of `create_code` over the instances of the recipe. -/
def create_code_loop (show_float : CFloat → String) (cleanup_code : CodeLines) :
    List RecipeStepInstance → String → Except Fault String
  | [], stream => .ok stream
  | s :: rest, stream =>
    match create_code_step show_float cleanup_code s stream with
    | .error f => .error f
    | .ok stream => create_code_loop show_float cleanup_code rest stream

/-- Function `create_code`: the text written to the file. `timestamp` is the
text that `ctime_s` puts into the buffer. -/
def create_code (timestamp : String) (show_float : CFloat → String) (recipe : Recipe) :
    Except Fault String :=
  let stream := "" ++ "// " ++ timestamp ++ NL
  let stream := stream ++ "#include<vector>" ++ NL
  let stream := stream ++ "#include<iostream>" ++ NL ++ NL
  let stream := stream ++ "int main() \x7b" ++ NL ++ NL
  let code := Model.setup_code []
  let stream := code.foldl (fun st line => st ++ "\t" ++ line ++ "\n") stream
  let cleanup_code := Model.cleanup_code ["// cleanup"]
  match create_code_loop show_float cleanup_code recipe.all stream with
  | .error f => .error f
  | .ok stream =>
    let stream := stream ++ NL
    let stream := cleanup_code.foldl (fun st line => st ++ "\t" ++ line ++ NL) stream
    let stream := stream ++ NL ++ "\treturn 0;" ++ NL
    let stream := stream ++ "\x7d" ++ NL
    .ok stream

/-! ## The function code generator `create_code_func` -/

/-- The lambda `func_name` of `create_code_func`; `std::to_string(i)` is the
decimal rendering of the `unsigned int`. Building a `std::string` from a null
name is outside defined behaviour. -/
def func_name (step : RecipeStep) (info : StepInfo) (i : Nat) : Except Fault String :=
  match step._name with
  | none => .error Fault.null_string
  | some name =>
    if info.always_same_code then .ok name
    else .ok (name ++ "_" ++ toString i)

/-- The skeleton shared by the two loops of `create_code_func`,
`for (auto i = 0u; i < cnt; ++i) { auto step = recipe.get(i); if (step) body }`,
over the values that `i` takes. -/
def for_each_step {σ : Type} (recipe : Recipe)
    (body : Nat → RecipeStepInstance → σ → Except Fault σ) :
    List Nat → σ → Except Fault σ
  | [], state => .ok state
  | i :: rest, state =>
    match recipe.get i with
    | none => for_each_step recipe body rest state
    | some s =>
      match body i s state with
      | .error f => .error f
      | .ok state => for_each_step recipe body rest state

/-- What the header loop of `create_code_func` carries along: the text
written to `header_stream` and the elements of the set `func_names`. -/
structure HeaderState where
  header_stream : String
  func_names : List String

/-- The body of the header loop of `create_code_func` for the instance `s` at
position `i`. -/
def create_code_func_header_step (show_float : CFloat → String) (i : Nat)
    (s : RecipeStepInstance) (state : HeaderState) : Except Fault HeaderState :=
  match s._step._info with
  | none => .error Fault.bad_function_call
  | some describe =>
    let stepInfo := describe {}
    match func_name s._step stepInfo i with
    | .error f => .error f
    | .ok function_name =>
      if !state.func_names.contains function_name then
        let returnValue := if stepInfo.returns_stop then "auto" else "void"
        let func_declaration :=
          "inline " ++ returnValue ++ " " ++ function_name
            ++ "(std::vector<float>&data, float&res)" ++ NL
        let header_stream := state.header_stream ++ func_declaration
        let header_stream := header_stream ++ "\x7b" ++ NL
        let header_stream := s._config.foldl
          (fun st kv => st ++ "\t// " ++ kv.1 ++ " : " ++ show_float kv.2 ++ NL) header_stream
        match s.make_code [] {} with
        | .error f => .error f
        | .ok (code, _) =>
          let header_stream := code.foldl (fun st line => st ++ "\t" ++ line ++ NL) header_stream
          let header_stream :=
            match stepInfo.returns_stop, stepInfo.stop_variable with
            | true, some stop_variable =>
              header_stream ++ "\treturn " ++ stop_variable ++ ";" ++ NL
            | _, _ => header_stream
          let header_stream := header_stream ++ "\x7d" ++ NL ++ NL
          .ok ⟨header_stream, function_name :: state.func_names⟩
      else .ok state

/-- The header part of `create_code_func`: the text written to the header
file. -/
def create_code_func_header (show_float : CFloat → String) (recipe : Recipe) :
    Except Fault String :=
  let cnt := recipe.count
  let header_stream := "" ++ "#pragma once" ++ NL
  let header_stream := header_stream ++ "#include<vector>" ++ NL
  let header_stream := header_stream ++ "#include<iostream>" ++ NL ++ NL
  match for_each_step recipe (create_code_func_header_step show_float) (List.range cnt)
      ⟨header_stream, []⟩ with
  | .error f => .error f
  | .ok state =>
    let code := Model.cleanup_code []
    let header_stream := state.header_stream
      ++ "inline void _cleanup(std::vector<float>&data, float&res)" ++ NL
    let header_stream := header_stream ++ "\x7b" ++ NL
    let header_stream := code.foldl (fun st line => st ++ "\t" ++ line ++ NL) header_stream
    let header_stream := header_stream ++ "\x7d" ++ NL ++ NL
    .ok header_stream

/-- The body of the driver loop of `create_code_func` for the instance `s` at
position `i`. -/
def create_code_func_cpp_step (i : Nat) (s : RecipeStepInstance) (cpp_stream : String) :
    Except Fault String :=
  match s._step._info with
  | none => .error Fault.bad_function_call
  | some describe =>
    let info := describe {}
    match func_name s._step info i with
    | .error f => .error f
    | .ok name =>
      let fname := name ++ "(data, res)"
      if info.returns_stop then
        let cpp_stream := cpp_stream ++ "\n\tif (!" ++ fname ++ ") \x7b" ++ NL
        let cpp_stream := cpp_stream ++ "\t\t_cleanup(data, res);" ++ NL
        let cpp_stream := cpp_stream ++ "\t\treturn 0;" ++ NL
        let cpp_stream := cpp_stream ++ "\t\x7d" ++ NL
        .ok cpp_stream
      else
        let cpp_stream := cpp_stream ++ NL
        let cpp_stream := cpp_stream ++ "\t" ++ fname ++ ";" ++ NL
        .ok cpp_stream

/-- The driver part of `create_code_func`: the text written to the cpp file;
`header_file` is the name of the header file. -/
def create_code_func_cpp (recipe : Recipe) (header_file : String) : Except Fault String :=
  let cnt := recipe.count
  let cpp_stream := "" ++ "#include \"" ++ header_file ++ "\"" ++ NL ++ NL
  let cpp_stream := cpp_stream ++ "int main() \x7b" ++ NL ++ NL
  let code := Model.setup_code []
  let cpp_stream := code.foldl (fun st line => st ++ "\t" ++ line ++ NL) cpp_stream
  match for_each_step recipe create_code_func_cpp_step (List.range cnt) cpp_stream with
  | .error f => .error f
  | .ok cpp_stream =>
    let cpp_stream := cpp_stream ++ NL ++ "\t_cleanup(data, res);" ++ NL
    let cpp_stream := cpp_stream ++ NL ++ "\treturn 0;" ++ NL
    let cpp_stream := cpp_stream ++ "\x7d" ++ NL
    .ok cpp_stream

/-- The two texts that `create_code_func` writes. -/
structure FuncArtifacts where
  header : String
  cpp : String
deriving DecidableEq, Repr

/-- Function `create_code_func`: the header file is written first, then the
cpp file. -/
def create_code_func (show_float : CFloat → String) (recipe : Recipe) (header_file : String) :
    Except Fault FuncArtifacts :=
  match create_code_func_header show_float recipe with
  | .error f => .error f
  | .ok header =>
    match create_code_func_cpp recipe header_file with
    | .error f => .error f
    | .ok cpp => .ok ⟨header, cpp⟩

/-! ## Example elements

The ten example steps of the source, the names under which `main` registers
them, and the registry and the recipe that `main` assembles. -/

/-- Executor `hello_world`. -/
def hello_world : Conf → Model → ExecResult :=
  fun _ m => ⟨true, m, "Hello World!\n"⟩

/-- Emitter `hello_world_code`. -/
def hello_world_code : Conf → CodeLines → CodeInfo → CodeLines × CodeInfo :=
  fun _ code info => (code ++ ["std::cout << \"Hello World !\\n\";"], info)

/-- Executor `clear_values`. -/
def clear_values : Conf → Model → ExecResult :=
  fun _ m => ⟨true, { m with _data := [], _res := ⟨0⟩ }, ""⟩

/-- Emitter `clear_values_code`. -/
def clear_values_code : Conf → CodeLines → CodeInfo → CodeLines × CodeInfo :=
  fun _ code info => ((code ++ ["data.clear();"]) ++ ["res = 0.0f;"], info)

/-- Executor `check_data`. -/
def check_data : Conf → Model → ExecResult :=
  fun _ m => ⟨!m._data.isEmpty, m, ""⟩

/-- Describer `check_data_info`. -/
def check_data_info : StepInfo → StepInfo :=
  fun info =>
    { info with always_same_code := true, returns_stop := true,
                stop_variable := some "populated" }

/-- Emitter `check_data_code`. -/
def check_data_code : Conf → CodeLines → CodeInfo → CodeLines × CodeInfo :=
  fun _ code info =>
    (code ++ ["const auto populated = !data.empty();"], { info with needs_scope := true })

/-- Describer `always_same_code`. -/
def always_same_code : StepInfo → StepInfo :=
  fun info => { info with always_same_code := true }

/-- Name `step::hello_world`. -/
def step.hello_world : String := "hello_world"

/-- Name `step::check_data`. -/
def step.check_data : String := "check_data"

/-- Name `step::reset`. -/
def step.reset : String := "reset"

/-- The step that `main` registers as `hello_world`. -/
def hello_world_step : RecipeStep :=
  ⟨some step.hello_world, some always_same_code, some hello_world, some hello_world_code⟩

/-- The step that `main` registers as `reset`. -/
def reset_step : RecipeStep :=
  ⟨some step.reset, some always_same_code, some clear_values, some clear_values_code⟩

/-- The step that `main` registers as `check_data`. -/
def check_data_step : RecipeStep :=
  ⟨some step.check_data, some check_data_info, some check_data, some check_data_code⟩

/-- Key `conf::print_number::num`. -/
def conf.print_number.num : String := "num"

/-- Key `conf::check_value::ref`. -/
def conf.check_value.ref : String := "ref"

/-- Executor `print_number`; `show_float` is the rendering of a `float` by
`operator<<`, and `.0f` has the bit pattern 0. -/
def print_number (show_float : CFloat → String) : Conf → Model → ExecResult :=
  fun config m =>
    let value := Conf.get_value id config conf.print_number.num ⟨0⟩
    ⟨true, m, "Number: \"" ++ show_float value ++ "\"\n"⟩

/-- Describer `print_number_info`. -/
def print_number_info : StepInfo → StepInfo :=
  fun info => { info with always_same_code := false }

/-- Emitter `print_number_code`; `to_string` is `std::to_string(float)`. -/
def print_number_code (to_string : CFloat → String) :
    Conf → CodeLines → CodeInfo → CodeLines × CodeInfo :=
  fun config code info =>
    let say := Conf.get_value id config conf.print_number.num ⟨0⟩
    let sayStr := to_string say
    (code ++ ["std::cout<<\"Number: \"<<" ++ sayStr ++ "<<\"\\n\";"], info)

/-- Executor `check_value`; `float_eq` is the comparison `==` of two `float`
values, and `0.0f` has the bit pattern 0. -/
def check_value (float_eq : CFloat → CFloat → Bool) : Conf → Model → ExecResult :=
  fun config m =>
    let ref := Conf.get_value id config conf.check_value.ref ⟨0⟩
    ⟨float_eq ref m._res, m, ""⟩

/-- Describer `check_value_info`. -/
def check_value_info : StepInfo → StepInfo :=
  fun info =>
    { info with always_same_code := false, returns_stop := true,
                stop_variable := some "res_ok" }

/-- Emitter `check_value_code`; `to_string` is `std::to_string(float)`. -/
def check_value_code (to_string : CFloat → String) :
    Conf → CodeLines → CodeInfo → CodeLines × CodeInfo :=
  fun config code info =>
    let ref := Conf.get_value id config conf.check_value.ref ⟨0⟩
    let refStr := to_string ref
    ((code ++ ["const auto expected_value = " ++ refStr ++ "f;"])
        ++ ["const auto res_ok = expected_value == res;"],
      { info with needs_scope := true })

/-- Name `step::print_number`. -/
def step.print_number : String := "print_number"

/-- Name `step::check`. -/
def step.check : String := "check"

/-- The step that `main` registers as `print_number`. -/
def print_number_step (show_float to_string : CFloat → String) : RecipeStep :=
  ⟨some step.print_number, some print_number_info, some (print_number show_float),
    some (print_number_code to_string)⟩

/-- The step that `main` registers as `check`. -/
def check_step (float_eq : CFloat → CFloat → Bool) (to_string : CFloat → String) :
    RecipeStep :=
  ⟨some step.check, some check_value_info, some (check_value float_eq),
    some (check_value_code to_string)⟩

/-- Executor `print_value`; `show_float` is the rendering of a `float` by
`operator<<`. -/
def print_value (show_float : CFloat → String) : Conf → Model → ExecResult :=
  fun _ m => ⟨true, m, "Result: " ++ show_float m._res ++ "\n"⟩

/-- Emitter `print_value_code`. -/
def print_value_code : Conf → CodeLines → CodeInfo → CodeLines × CodeInfo :=
  fun _ code info => (code ++ ["std::cout << \"Result: \" << res <<\"\\n\";"], info)

/-- Executor `print_data`; `show_float` is the rendering of a `float` by
`operator<<`. -/
def print_data (show_float : CFloat → String) : Conf → Model → ExecResult :=
  fun _ m =>
    ⟨true, m, m._data.foldl (fun out v => out ++ show_float v ++ "\n") ("" ++ "Data:\n")⟩

/-- Emitter `print_data_code`. -/
def print_data_code : Conf → CodeLines → CodeInfo → CodeLines × CodeInfo :=
  fun _ code info =>
    (((code ++ ["std::cout << \"Data :\\n\";"]) ++ ["for (const auto& v : data)"])
        ++ ["\tstd::cout << v << \"\\n\";"], info)

/-- Executor `calculate_sum`; `add` is the `float` addition of `+=`, and
the bit pattern 0 is `0.0f`. -/
def calculate_sum (add : CFloat → CFloat → CFloat) : Conf → Model → ExecResult :=
  fun _ m => ⟨true, { m with _res := m._data.foldl add ⟨0⟩ }, ""⟩

/-- Emitter `calculate_sum_code`. -/
def calculate_sum_code : Conf → CodeLines → CodeInfo → CodeLines × CodeInfo :=
  fun _ code info =>
    ((code ++ ["res = 0.0f;"]) ++ ["for (const auto&v:data) \x7bres += v;\x7d"], info)

/-- Name `step::sum`. -/
def step.sum : String := "sum"

/-- The step that `main` registers as `sum`. -/
def sum_step (add : CFloat → CFloat → CFloat) : RecipeStep :=
  ⟨some step.sum, some always_same_code, some (calculate_sum add), some calculate_sum_code⟩

/-- Key `conf::add_values::cnt`. -/
def conf.add_values.cnt : String := "cnt"

/-- Name `step::print_data`. -/
def step.print_data : String := "print_data"

/-- A schema has all four parts: name, describer, executor and emitter. -/
def RecipeStep.complete (s : RecipeStep) : Prop :=
  s._name.isSome = true ∧ s._info.isSome = true ∧ s._execute.isSome = true ∧
    s._code.isSome = true

/-- The arguments of the calls of the progress callback, in order. -/
def progress_calls : List Call → List (Nat × Option String)
  | [] => []
  | Call.progress i name :: rest => (i, name) :: progress_calls rest
  | _ :: rest => progress_calls rest

/-- The positions of the instances whose executor was called, in order. -/
def executed_positions : List Call → List Nat
  | [] => []
  | Call.execute pos _ _ :: rest => pos :: executed_positions rest
  | _ :: rest => executed_positions rest

/-- The return values of the executor calls, in order. -/
def executor_returns : List Call → List Bool
  | [] => []
  | Call.execute _ ret _ :: rest => ret :: executor_returns rest
  | _ :: rest => executor_returns rest

/-- The arguments of the calls of the time callback, in order. -/
def time_calls : List Call → List Int
  | [] => []
  | Call.print_time diff :: rest => diff :: time_calls rest
  | _ :: rest => time_calls rest

/-- The model after the executors of the given instances were applied in
order to the model `m` (whatever they returned). -/
def apply_executors : List RecipeStepInstance → Model → Model
  | [], m => m
  | s :: rest, m =>
    match s._step._execute with
    | none => apply_executors rest m
    | some f => apply_executors rest (f s._config m).model

/-- What the executor of instance `j` returns when it is called on the model
that the executors of the instances `0..j-1` leave behind on a fresh `Model`;
`none` when there is no such instance or it has no executor. -/
def returns_at (steps : List RecipeStepInstance) (j : Nat) : Option Bool :=
  match steps[j]? with
  | none => none
  | some s =>
    match s._step._execute with
    | none => none
    | some f => some (f s._config (apply_executors (steps.take j) {})).ret

/-- Every executor of the given instances returns true when they are applied
in order from the model `m`. -/
def all_continue : List RecipeStepInstance → Model → Bool
  | [], _ => true
  | s :: rest, m =>
    match s._step._execute with
    | none => false
    | some f => (f s._config m).ret && all_continue rest (f s._config m).model

/-- The keys of a `Conf` in iteration order. -/
def Conf.keys (c : Conf) : List String := c.map Prod.fst

/-- The instance after a sequence of `set_config(key, value)` calls, made in
list order on an instance created with an empty `Conf` (as `add_step` does). -/
def configured (step : RecipeStep) (calls : List (String × CFloat)) : RecipeStepInstance :=
  calls.foldl (fun s kv => s.set_config kv.1 kv.2) ⟨step, []⟩

/-- The value of the last call for the key `k` in a sequence of
`set_config(key, value)` calls, if there is one. -/
def last_value : List (String × CFloat) → String → Option CFloat
  | [], _ => none
  | kv :: rest, k =>
    match last_value rest k with
    | some v => some v
    | none => if kv.1 = k then some kv.2 else none

/-- The text format of a persisted recipe as the specification words it, for
one instance: one line holding the name of the step, then one line
`-->KEY:VALUE` for each entry of the `Conf`, in iteration order. -/
def persisted_instance (to_string : CFloat → String) (s : RecipeStepInstance) : String :=
  (s._step._name.getD "" ++ "\n") ++
    String.join (s._config.map (fun kv => "-->" ++ kv.1 ++ ":" ++ to_string kv.2 ++ "\n"))

/-- The text format of a persisted recipe as the specification words it: the
texts of the instances in recipe order, with nothing between them. -/
def persisted_text (to_string : CFloat → String) (steps : List RecipeStepInstance) : String :=
  String.join (steps.map (persisted_instance to_string))

/-- What the emitter of the instance produces when `create_code` calls
`make_code` on the cleared `code` and a fresh `CodeInfo`. -/
def emitted (s : RecipeStepInstance) : CodeLines × CodeInfo :=
  match s.make_code [] {} with
  | .ok produced => produced
  | .error _ => ([], {})

/-- What the describer of the step of the instance sets on a fresh `StepInfo`. -/
def described (s : RecipeStepInstance) : StepInfo :=
  match s._step._info with
  | some describe => describe {}
  | none => {}

/-- The instance can be handed to the code generator: its step has a name, a
describer and an emitter, and a describer that sets `returns_stop` also names
the stop variable. -/
def RecipeStepInstance.generable (s : RecipeStepInstance) : Prop :=
  s._step._name.isSome = true ∧ s._step._info.isSome = true ∧ s._step._code.isSome = true ∧
    ((described s).returns_stop = true → (described s).stop_variable.isSome = true)

/-- The cleanup lines of `create_code`. -/
def cleanup_lines : CodeLines := ["// cleanup", "data.clear();", "data.shrink_to_fit();"]

/-- The indentation of the block of an instance in the inline artifact. -/
def block_tabs (info : CodeInfo) : String := if info.needs_scope then "\t\t" else "\t"

/-- The abort guard as the specification words it: the line
`if (!<stop_variable>) {`, then the cleanup lines, then `return 0;`, then `}`,
each at the indentation `tabs` (the guarded lines one level deeper). -/
def abort_guard (tabs stop_variable : String) : String :=
  String.join
    ((["if (!" ++ stop_variable ++ ") \x7b"] ++ cleanup_lines.map (fun line => "\t" ++ line)
        ++ ["\treturn 0;", "\x7d"]).map (fun line => tabs ++ line ++ "\n"))

/-- The text of the block of an instance before the emitted code lines: the
separating empty line, the opening brace of the scope when the emitter asks
for one, the comment naming the step and one comment per `Conf` entry. -/
def inline_lead (show_float : CFloat → String) (s : RecipeStepInstance) : String :=
  "\n" ++ (if (emitted s).2.needs_scope then "\t\x7b" ++ "\n" else "") ++
    (block_tabs (emitted s).2 ++ "// " ++ s._step._name.getD "" ++ "\n") ++
    String.join (s._config.map (fun kv =>
      block_tabs (emitted s).2 ++ "// " ++ kv.1 ++ " : " ++ show_float kv.2 ++ "\n"))

/-- The emitted code lines of an instance as they stand in the inline
artifact: each line after the indentation of the block. -/
def inline_code_text (s : RecipeStepInstance) : String :=
  String.join ((emitted s).1.map (fun line => block_tabs (emitted s).2 ++ line ++ "\n"))

/-- The block of an instance in the inline artifact: lead, emitted code lines,
the abort guard when the describer sets `returns_stop`, and the closing brace
of the scope when the emitter asks for one. -/
def inline_block (show_float : CFloat → String) (s : RecipeStepInstance) : String :=
  inline_lead show_float s ++ inline_code_text s ++
    (if (described s).returns_stop then
      abort_guard (block_tabs (emitted s).2) ((described s).stop_variable.getD "")
     else "") ++
    (if (emitted s).2.needs_scope then "\t\x7d" ++ "\n" else "")

/-- The domain-state setup lines of `create_code`. -/
def setup_lines : CodeLines := ["std::vector<float> data;", "auto res = .0f;"]

/-- The text of the inline artifact before the first block: the timestamp
comment, the two include lines, the opening of `main` and the setup lines. -/
def inline_head (timestamp : String) : String :=
  "// " ++ timestamp ++ "\n" ++ "#include<vector>" ++ "\n" ++ "#include<iostream>" ++ "\n"
    ++ "\n" ++ "int main() \x7b" ++ "\n" ++ "\n" ++
    String.join (setup_lines.map (fun line => "\t" ++ line ++ "\n"))

/-- The text of the inline artifact after the last block: an empty line, the
cleanup lines, an empty line, `return 0;` and the closing brace of `main`. -/
def inline_tail : String :=
  "\n" ++ String.join (cleanup_lines.map (fun line => "\t" ++ line ++ "\n")) ++
    "\n" ++ "\treturn 0;" ++ "\n" ++ "\x7d" ++ "\n"

/-- The instance can be handed to the function code generator: its step has
a name, a describer and an emitter. -/
def RecipeStepInstance.emittable (s : RecipeStepInstance) : Prop :=
  s._step._name.isSome = true ∧ s._step._info.isSome = true ∧ s._step._code.isSome = true

/-- The function name derived for the instance `s` at position `i`, as the
specification words it: the name of the step when the describer sets
`always_same_code`, otherwise the name followed by `_` and the decimal
rendering of `i`. -/
def derived_name (i : Nat) (s : RecipeStepInstance) : String :=
  if (described s).always_same_code then s._step._name.getD ""
  else s._step._name.getD "" ++ "_" ++ toString i

/-- The loop skeleton of `create_code_func` over the instances paired with
their positions. -/
def for_each_pair {σ : Type} (body : Nat → RecipeStepInstance → σ → Except Fault σ) :
    List (Nat × RecipeStepInstance) → σ → Except Fault σ
  | [], state => .ok state
  | p :: rest, state =>
    match body p.1 p.2 state with
    | .error f => .error f
    | .ok state => for_each_pair body rest state

/-- The instances, paired with their positions, whose function body is
written to the library: those whose derived name is neither in `seen` nor the
derived name of an instance before them in the list. -/
def emitted_bodies :
    List (Nat × RecipeStepInstance) → List String → List (Nat × RecipeStepInstance)
  | [], _ => []
  | p :: rest, seen =>
    if derived_name p.1 p.2 ∈ seen then emitted_bodies rest seen
    else p :: emitted_bodies rest (derived_name p.1 p.2 :: seen)

/-- The return line that the generator adds to a function body: present when
the describer sets `returns_stop` and names a stop variable. -/
def return_line (info : StepInfo) : String :=
  match info.returns_stop, info.stop_variable with
  | true, some stop_variable => "\treturn " ++ stop_variable ++ ";" ++ "\n"
  | _, _ => ""

/-- The function definition written to the library for the instance `p.2` at
position `p.1`: the declaration line, `{`, one comment per `Conf` entry, the
code lines of the emitter, the return line, `}` and an empty line. -/
def function_text (show_float : CFloat → String) (p : Nat × RecipeStepInstance) : String :=
  ("inline " ++ (if (described p.2).returns_stop then "auto" else "void") ++ " " ++
      derived_name p.1 p.2 ++ "(std::vector<float>&data, float&res)" ++ "\n") ++
    ("\x7b" ++ "\n") ++
    String.join (p.2._config.map (fun kv =>
      "\t// " ++ kv.1 ++ " : " ++ show_float kv.2 ++ "\n")) ++
    String.join ((emitted p.2).1.map (fun line => "\t" ++ line ++ "\n")) ++
    return_line (described p.2) ++
    ("\x7d" ++ "\n" ++ "\n")

/-- The text of the library before the first function. -/
def library_head : String :=
  "#pragma once" ++ "\n" ++ "#include<vector>" ++ "\n" ++ "#include<iostream>" ++ "\n" ++ "\n"

/-- The definition of the cleanup function at the end of the library. -/
def cleanup_function_text : String :=
  "inline void _cleanup(std::vector<float>&data, float&res)" ++ "\n" ++ ("\x7b" ++ "\n") ++
    String.join (["data.clear();", "data.shrink_to_fit();"].map
      (fun line => "\t" ++ line ++ "\n")) ++
    ("\x7d" ++ "\n" ++ "\n")

/-- The call site of the driver for the instance `p.2` at position `p.1`: the
derived name applied to `(data, res)`, as the condition of a guard when the
describer sets `returns_stop`, as a statement otherwise. -/
def call_site (p : Nat × RecipeStepInstance) : String :=
  if (described p.2).returns_stop then
    "\n\tif (!" ++ (derived_name p.1 p.2 ++ "(data, res)") ++ ") \x7b" ++ "\n" ++
      ("\t\t_cleanup(data, res);" ++ "\n") ++ ("\t\treturn 0;" ++ "\n") ++ ("\t\x7d" ++ "\n")
  else
    "\n" ++ ("\t" ++ (derived_name p.1 p.2 ++ "(data, res)") ++ ";" ++ "\n")

/-- The text of the driver before the first call site. -/
def driver_head (header_file : String) : String :=
  "#include \"" ++ header_file ++ "\"" ++ "\n" ++ "\n" ++ "int main() \x7b" ++ "\n" ++ "\n" ++
    String.join (setup_lines.map (fun line => "\t" ++ line ++ "\n"))

/-- The text of the driver after the last call site. -/
def driver_tail : String :=
  "\n" ++ "\t_cleanup(data, res);" ++ "\n" ++ "\n" ++ "\treturn 0;" ++ "\n" ++ "\x7d" ++ "\n"

/-- The functions of the steps in the library of `create_code_func`: the name
of each function and the code lines of its body that come from the emitter
(without the `Conf` comments and the added return line). -/
def library_functions (r : Recipe) : List (String × CodeLines) :=
  (emitted_bodies r._steps.enum []).map (fun p => (derived_name p.1 p.2, (emitted p.2).1))

/-- The step code lines behind the call sites of the driver, in call order:
for each instance the body of the library function that its call site names. -/
def driver_code_lines (r : Recipe) : List CodeLines :=
  r._steps.enum.map (fun p => ((library_functions r).lookup (derived_name p.1 p.2)).getD [])

/-- The block of the instance `s` in the inline artifact when it holds the
code lines `code`: lead, the code lines after the indentation of the block,
the abort guard when the describer sets `returns_stop`, and the closing brace
of the scope when the emitter asks for one. -/
def inline_block_with (show_float : CFloat → String) (s : RecipeStepInstance)
    (code : CodeLines) : String :=
  inline_lead show_float s ++
    String.join (code.map (fun line => block_tabs (emitted s).2 ++ line ++ "\n")) ++
    (if (described s).returns_stop then
      abort_guard (block_tabs (emitted s).2) ((described s).stop_variable.getD "")
     else "") ++
    (if (emitted s).2.needs_scope then "\t\x7d" ++ "\n" else "")

/-- The number that a sequence of decimal digit characters denotes, read from
the left and continuing from `acc`. -/
def read_decimal (acc : Nat) : List Char → Nat
  | [] => acc
  | c :: rest => read_decimal (acc * 10 + (c.toNat - 48)) rest

/-- Where the scan of a line of C++ code stands: in code, inside a string
literal, or behind a backslash inside a string literal. -/
inductive ScanMode where
  | code
  | literal
  | escape
deriving DecidableEq, Repr

/-- The scan of `string_literals`: `current` holds the characters of the
literal read so far. -/
def string_literals_scan : ScanMode → List Char → List Char → List String
  | _, [], _ => []
  | ScanMode.code, c :: rest, _ =>
    if c = Char.ofNat 34 then string_literals_scan ScanMode.literal rest []
    else string_literals_scan ScanMode.code rest []
  | ScanMode.literal, c :: rest, current =>
    if c = Char.ofNat 92 then string_literals_scan ScanMode.escape rest current
    else if c = Char.ofNat 34 then
      String.mk current :: string_literals_scan ScanMode.code rest []
    else string_literals_scan ScanMode.literal rest (current ++ [c])
  | ScanMode.escape, c :: rest, current =>
    string_literals_scan ScanMode.literal rest
      (current ++ [if c = 'n' then Char.ofNat 10 else if c = 't' then Char.ofNat 9 else c])

/-- The texts of the string literals of a line of C++ code, in order: what
stands between two double quotes, with the escape sequences backslash-n and
backslash-t replaced by a newline and a tabulator and every other escaped
character by itself. These are the fixed texts that a statement
`std::cout << ... ;` writes. -/
def string_literals (line : String) : List String :=
  string_literals_scan ScanMode.code line.data []

/-- The character is an opening or a closing brace. -/
def is_brace (c : Char) : Bool := c == Char.ofNat 123 || c == Char.ofNat 125

/-- The braces of a text, in order. -/
def braces (s : String) : List Char := s.data.filter is_brace

/-- The text contains no brace. -/
def brace_free (s : String) : Prop := braces s = []

/-- The nesting depth after a sequence of characters read at depth `depth`:
an opening brace goes one level deeper, a closing brace one level up, and
there is no result when a closing brace has no opening brace to match. -/
def nesting : Nat → List Char → Option Nat
  | depth, [] => some depth
  | depth, c :: rest =>
    if c = Char.ofNat 123 then nesting (depth + 1) rest
    else if c = Char.ofNat 125 then
      match depth with
      | 0 => none
      | above + 1 => nesting above rest
    else nesting depth rest

/-- The braces of the text are balanced and properly nested: every closing
brace matches an earlier opening brace and no opening brace stays open. -/
def brace_balanced (s : String) : Prop := nesting 0 s.data = some 0

/-- The braces that the block of an instance contributes to the inline
artifact: the opening brace of its scope when the emitter asks for one, the
braces of its emitted code lines, the opening and the closing brace of the
abort guard when the describer sets `returns_stop`, and the closing brace of
the scope when the emitter asks for one. -/
def block_braces (s : RecipeStepInstance) : List Char :=
  (if (emitted s).2.needs_scope then [Char.ofNat 123] else []) ++
    braces (String.join (emitted s).1) ++
    (if (described s).returns_stop then [Char.ofNat 123, Char.ofNat 125] else []) ++
    (if (emitted s).2.needs_scope then [Char.ofNat 125] else [])

/-- The texts that the inline generator copies into the artifact next to the
emitted code lines contain no brace: the name of the step, the keys and the
rendered values of the `Conf`, and the stop variable. -/
def RecipeStepInstance.plain_labels (show_float : CFloat → String)
    (s : RecipeStepInstance) : Prop :=
  brace_free (s._step._name.getD "") ∧
    (∀ kv ∈ s._config, brace_free kv.1 ∧ brace_free (show_float kv.2)) ∧
    brace_free ((described s).stop_variable.getD "")

/-- A registry in which the name `hello_world` is registered twice: for the
step `hello_world` at position 0 and for the executor of `reset` at position 2. -/
def duplicate_name_registry : Registry :=
  ((({} : Registry).reg hello_world_step).reg check_data_step).reg
    ⟨some step.hello_world, some always_same_code, some clear_values, some clear_values_code⟩

/-- A registry holding one schema whose name is the empty string `""` (a
non-null pointer to an empty C string), with describer, executor and emitter. -/
def empty_name_registry : Registry :=
  ({} : Registry).reg ⟨some "", some always_same_code, some hello_world, some hello_world_code⟩

/-- A recipe of three instances whose second executor (`check_data` on the
empty buffer) returns false. -/
def stopping_recipe : Recipe :=
  { _steps := [⟨hello_world_step, []⟩, ⟨check_data_step, []⟩, ⟨reset_step, []⟩] }

/-- A recipe of two instances: `hello_world` without configuration, and
`check_data` configured with the key `b` and then the key `a`. -/
def configured_recipe : Recipe :=
  { _steps := [⟨hello_world_step, []⟩,
               configured check_data_step [("b", ⟨2⟩), ("a", ⟨1⟩)]] }

/-- A clock that advances by 1000 ns between two readings. -/
def steady_clock : Nat → Int := fun tick => 1000 * (tick : Int)

/-- A rendering of `float` values used in examples: the bit pattern in
decimal. -/
def show_bits : CFloat → String := fun v => toString v.bits

/-- A recipe with two instances of `hello_world`, two of `check_data`, and a
configured `print_number` and `check` between them. -/
def repeating_recipe : Recipe :=
  { _steps := [⟨hello_world_step, []⟩,
               configured (print_number_step show_bits show_bits) [("num", ⟨42⟩)],
               ⟨check_data_step, []⟩,
               ⟨hello_world_step, []⟩,
               configured (check_step (fun a b => decide (a = b)) show_bits) [("ref", ⟨45⟩)],
               ⟨check_data_step, []⟩] }

/-- A step whose describer sets `returns_stop` and names no stop variable
(`stop_variable` keeps its default, the null pointer). -/
def unnamed_stop_step : RecipeStep :=
  ⟨some "stop", some (fun info => { info with returns_stop := true }), some check_data,
    some check_data_code⟩

/-- A step that carries the name `hello_world` and the describer
`always_same_code`, with the executor and the emitter of `reset`. -/
def renamed_reset_step : RecipeStep :=
  ⟨some step.hello_world, some always_same_code, some clear_values, some clear_values_code⟩

/-- A recipe of the step `hello_world` followed by a different step of the
same name. -/
def same_name_recipe : Recipe :=
  { _steps := [⟨hello_world_step, []⟩, ⟨renamed_reset_step, []⟩] }

/-- A step named `print_number_1` whose describer sets `always_same_code`,
with the executor and the emitter of `hello_world`. -/
def colliding_step : RecipeStep :=
  ⟨some "print_number_1", some always_same_code, some hello_world, some hello_world_code⟩

/-- A recipe of the step named `print_number_1` at position 0 and the step
`print_number` at position 1. -/
def colliding_recipe : Recipe :=
  { _steps := [⟨colliding_step, []⟩,
               configured (print_number_step show_bits show_bits) [("num", ⟨42⟩)]] }

/-- A recipe of a configured `print_number`, `sum` and `check_data`: one
block without scope or guard whose code has braces, between a configured
block and a scoped block with a guard.  The addition of `sum` plays no
part in code generation; the first projection stands for it. -/
def summing_recipe : Recipe :=
  { _steps := [configured (print_number_step show_bits show_bits) [("num", ⟨42⟩)],
               ⟨sum_step (fun a _ => a), []⟩,
               ⟨check_data_step, []⟩] }

/-- A step registered under the name `_cleanup`, with the describer
`always_same_code` and the executor and the emitter of `hello_world`. -/
def cleanup_named_step : RecipeStep :=
  ⟨some "_cleanup", some always_same_code, some hello_world, some hello_world_code⟩

/-- A step registered under a name that holds a closing brace, with the
describer `always_same_code` and the executor and the emitter of
`hello_world`. -/
def brace_named_step : RecipeStep :=
  ⟨some "a\x7d", some always_same_code, some hello_world, some hello_world_code⟩

/-- A step whose describer sets `returns_stop` and names a stop variable that
holds an opening brace, with the executor and the emitter of `check_data`. -/
def brace_variable_step : RecipeStep :=
  ⟨some "stop",
    some (fun info => { info with returns_stop := true, stop_variable := some "\x7b" }),
    some check_data, some check_data_code⟩

theorem char_toNat_inj {a b : Char} (h : a.toNat = b.toNat) : a = b := by
  apply Char.ext
  apply UInt32.ext
  exact h

theorem strcmp_chars_eq_zero_iff (a b : List Char) : strcmp_chars a b = 0 ↔ a = b := by
  induction a generalizing b with
  | nil => cases b <;> simp [strcmp_chars]
  | cons x xs ih =>
    cases b with
    | nil => simp [strcmp_chars]
    | cons y ys =>
      simp only [strcmp_chars]
      by_cases h1 : x.toNat < y.toNat
      · simp only [h1, if_true]
        constructor
        · intro h; omega
        · intro h; injection h with hx _; subst hx; omega
      · by_cases h2 : y.toNat < x.toNat
        · simp only [h1, h2, if_true, if_false]
          constructor
          · intro h; omega
          · intro h; injection h with hx _; subst hx; omega
        · simp only [h1, h2, if_false]
          have hxy : x = y := char_toNat_inj (by omega)
          rw [ih ys]
          constructor
          · intro h; rw [hxy, h]
          · intro h; injection h

theorem strcmp_eq_zero_iff (a b : String) : strcmp a b = 0 ↔ a = b := by
  unfold strcmp
  rw [strcmp_chars_eq_zero_iff]
  constructor
  · intro h; exact String.ext h
  · intro h; rw [h]

theorem strcmp_chars_neg_iff_pos (a b : List Char) :
    strcmp_chars a b < 0 ↔ 0 < strcmp_chars b a := by
  induction a generalizing b with
  | nil => cases b <;> simp [strcmp_chars]
  | cons x xs ih =>
    cases b with
    | nil => simp [strcmp_chars]
    | cons y ys =>
      simp only [strcmp_chars]
      by_cases h1 : x.toNat < y.toNat
      · have h2 : ¬ y.toNat < x.toNat := by omega
        simp [h1, h2]
      · by_cases h2 : y.toNat < x.toNat
        · simp [h1, h2]
        · simp only [h1, h2, if_false]
          exact ih ys

theorem strcmp_chars_trans (a b c : List Char)
    (hab : strcmp_chars a b < 0) (hbc : strcmp_chars b c < 0) : strcmp_chars a c < 0 := by
  induction a generalizing b c with
  | nil =>
    cases c with
    | nil => cases b <;> simp [strcmp_chars] at hab hbc
    | cons z zs => simp [strcmp_chars]
  | cons x xs ih =>
    cases b with
    | nil => simp [strcmp_chars] at hab
    | cons y ys =>
      cases c with
      | nil => simp [strcmp_chars] at hbc
      | cons z zs =>
        simp only [strcmp_chars] at hab hbc ⊢
        by_cases hxy : x.toNat < y.toNat
        · by_cases hyz : y.toNat < z.toNat
          · have hxz : x.toNat < z.toNat := by omega
            simp [hxz]
          · by_cases hzy : z.toNat < y.toNat
            · simp [hyz, hzy] at hbc
            · have hxz : x.toNat < z.toNat := by omega
              simp [hxz]
        · by_cases hyx : y.toNat < x.toNat
          · simp [hxy, hyx] at hab
          · simp only [hxy, hyx, if_false] at hab
            by_cases hyz : y.toNat < z.toNat
            · have hxz : x.toNat < z.toNat := by omega
              simp [hxz]
            · by_cases hzy : z.toNat < y.toNat
              · simp [hyz, hzy] at hbc
              · simp only [hyz, hzy, if_false] at hbc
                have hxz : ¬ x.toNat < z.toNat := by omega
                have hzx : ¬ z.toNat < x.toNat := by omega
                simp only [hxz, hzx, if_false]
                exact ih ys zs hab hbc

theorem check_c_char_iff (a b : String) : check_c_char a b = true ↔ strcmp a b < 0 := by
  simp [check_c_char]

theorem check_c_char_irrefl (a : String) : check_c_char a a = false := by
  have h : strcmp a a = 0 := (strcmp_eq_zero_iff a a).mpr rfl
  simp [check_c_char, h]

theorem check_c_char_asymm (a b : String) (h : check_c_char a b = true) :
    check_c_char b a = false := by
  rw [check_c_char_iff] at h
  have h2 : 0 < strcmp b a := (strcmp_chars_neg_iff_pos _ _).mp h
  have h3 : ¬ strcmp b a < 0 := by omega
  simp [check_c_char, h3]

theorem check_c_char_trans (a b c : String) (hab : check_c_char a b = true)
    (hbc : check_c_char b c = true) : check_c_char a c = true := by
  rw [check_c_char_iff] at hab hbc ⊢
  exact strcmp_chars_trans _ _ _ hab hbc

theorem check_c_char_total (a b : String) (hab : check_c_char a b = false)
    (hba : check_c_char b a = false) : a = b := by
  have h1 : ¬ strcmp a b < 0 := by
    intro h
    rw [(check_c_char_iff a b).mpr h] at hab
    cases hab
  have h2 : ¬ strcmp b a < 0 := by
    intro h
    rw [(check_c_char_iff b a).mpr h] at hba
    cases hba
  have h3 : ¬ 0 < strcmp a b := fun h => h2 ((strcmp_chars_neg_iff_pos _ _).mpr h)
  exact (strcmp_eq_zero_iff a b).mp (by omega)

/-! ## Registry -/

theorem validate_scan_iff (l : List RecipeStep) :
    Registry.validate_scan l = true ↔ ∀ s ∈ l, s.complete := by
  induction l with
  | nil => simp [Registry.validate_scan]
  | cons s rest ih =>
    unfold Registry.validate_scan
    cases hn : s._name <;> cases hi : s._info <;> cases he : s._execute <;>
      cases hc : s._code <;>
      simp [RecipeStep.complete, hn, hi, he, hc, ih]

/-- C3, where the claim fails: `validate` returns true for a registry whose
only schema has the empty string as its name; the name is compared with
`nullptr` only. -/
theorem validate_accepts_empty_name :
    empty_name_registry.validate = true ∧
    (empty_name_registry.get_step 0).map (fun p => p.deref._name) = some (some "") ∧
    ¬ (∀ s ∈ empty_name_registry._steps, ∃ name, s._name = some name ∧ name ≠ "") := by
  refine ⟨by decide, by decide, ?_⟩
  intro h
  obtain ⟨name, h1, h2⟩ := h _ (List.mem_singleton.mpr rfl)
  injection h1 with h1
  exact h2 h1.symm

/-- C3 as amended: `Registry::validate` returns true exactly when every
registered schema has a name pointer that is not null (the empty string
counts as a name), a non-empty describer, a non-empty executor and a non-empty
emitter; it returns false as soon as one registered schema misses one of the
four, and true for the empty registry. -/
theorem validate_true_iff_all_complete (r : Registry) :
    (r.validate = true ↔
      ∀ s ∈ r._steps, s._name.isSome = true ∧ s._info.isSome = true ∧
        s._execute.isSome = true ∧ s._code.isSome = true) ∧
    (∀ s ∈ r._steps,
      (s._name.isNone = true ∨ s._info.isNone = true ∨ s._execute.isNone = true ∨
        s._code.isNone = true) → r.validate = false) ∧
    Registry.validate {} = true := by
  refine ⟨validate_scan_iff r._steps, ?_, rfl⟩
  intro s hs hmiss
  cases hv : r.validate with
  | false => rfl
  | true =>
    have hc := (validate_scan_iff r._steps).mp hv s hs
    obtain ⟨h1, h2, h3, h4⟩ := hc
    rcases hmiss with h | h | h | h
    · cases hn : s._name <;> simp [hn] at h h1
    · cases hn : s._info <;> simp [hn] at h h2
    · cases hn : s._execute <;> simp [hn] at h h3
    · cases hn : s._code <;> simp [hn] at h h4

theorem get_step_scan_some (l : List RecipeStep) (pos : Nat) (id : String)
    (hnames : ∀ s ∈ l, s._name.isSome = true) (p : StepPtr) :
    Registry.get_step_scan l pos id = .ok (some p) ↔
      ∃ k, p.index = pos + k ∧ l[k]? = some p.deref ∧ p.deref._name = some id ∧
        ∀ j, j < k → ∀ t, l[j]? = some t → t._name ≠ some id := by
  induction l generalizing pos with
  | nil => simp [Registry.get_step_scan]
  | cons s rest ih =>
    have hrest : ∀ t ∈ rest, t._name.isSome = true :=
      fun t ht => hnames t (List.mem_cons_of_mem _ ht)
    have hs := hnames s (List.mem_cons_self _ _)
    cases hn : s._name with
    | none => simp [hn] at hs
    | some n =>
      unfold Registry.get_step_scan
      simp only [hn]
      by_cases hcmp : strcmp n id = 0
      · have hid : n = id := (strcmp_eq_zero_iff n id).mp hcmp
        simp only [hcmp, if_true]
        constructor
        · intro h
          injection h with h
          injection h with h
          subst h
          exact ⟨0, by simp, by simp, by simp [hn, hid], by intro j hj; omega⟩
        · rintro ⟨k, hk1, hk2, hk3, hk4⟩
          cases k with
          | zero =>
            simp at hk2
            cases p with
            | mk pi pd =>
              simp at hk1 hk2
              subst hk1; subst hk2; rfl
          | succ k =>
            exact absurd (by rw [hn, hid]) (hk4 0 (by omega) s (by simp))
      · have hid : n ≠ id := fun h => hcmp ((strcmp_eq_zero_iff n id).mpr h)
        simp only [hcmp, if_false]
        rw [ih (pos + 1) hrest]
        constructor
        · rintro ⟨k, hk1, hk2, hk3, hk4⟩
          refine ⟨k + 1, by omega, by simpa using hk2, hk3, ?_⟩
          intro j hj t ht
          cases j with
          | zero =>
            simp at ht
            subst ht
            rw [hn]
            intro h
            injection h with h
            exact hid h
          | succ j => exact hk4 j (by omega) t (by simpa using ht)
        · rintro ⟨k, hk1, hk2, hk3, hk4⟩
          cases k with
          | zero =>
            simp at hk2
            subst hk2
            rw [hn] at hk3
            injection hk3 with h
            exact absurd h hid
          | succ k =>
            refine ⟨k, by omega, by simpa using hk2, hk3, ?_⟩
            intro j hj t ht
            exact hk4 (j + 1) (by omega) t (by simpa using ht)

theorem get_step_scan_none (l : List RecipeStep) (pos : Nat) (id : String)
    (hnames : ∀ s ∈ l, s._name.isSome = true) :
    Registry.get_step_scan l pos id = .ok none ↔ ∀ s ∈ l, s._name ≠ some id := by
  induction l generalizing pos with
  | nil => simp [Registry.get_step_scan]
  | cons s rest ih =>
    have hrest : ∀ t ∈ rest, t._name.isSome = true :=
      fun t ht => hnames t (List.mem_cons_of_mem _ ht)
    have hs := hnames s (List.mem_cons_self _ _)
    cases hn : s._name with
    | none => simp [hn] at hs
    | some n =>
      unfold Registry.get_step_scan
      simp only [hn]
      by_cases hcmp : strcmp n id = 0
      · have hid : n = id := (strcmp_eq_zero_iff n id).mp hcmp
        simp only [hcmp, if_true]
        constructor
        · intro h
          injection h with h
          cases h
        · intro h
          exact absurd (by rw [hn, hid]) (h s (List.mem_cons_self _ _))
      · have hid : n ≠ id := fun h => hcmp ((strcmp_eq_zero_iff n id).mpr h)
        simp only [hcmp, if_false]
        rw [ih (pos + 1) hrest]
        simp [hn, hid]

theorem get_step_scan_defined (l : List RecipeStep) (pos : Nat) (id : String)
    (hnames : ∀ s ∈ l, s._name.isSome = true) :
    ∃ res, Registry.get_step_scan l pos id = .ok res := by
  induction l generalizing pos with
  | nil => exact ⟨none, rfl⟩
  | cons s rest ih =>
    have hrest : ∀ t ∈ rest, t._name.isSome = true :=
      fun t ht => hnames t (List.mem_cons_of_mem _ ht)
    have hs := hnames s (List.mem_cons_self _ _)
    cases hn : s._name with
    | none => simp [hn] at hs
    | some n =>
      unfold Registry.get_step_scan
      simp only [hn]
      by_cases hcmp : strcmp n id = 0
      · exact ⟨some ⟨pos, s⟩, by simp [hcmp]⟩
      · simp only [hcmp, if_false]
        exact ih (pos + 1) hrest

/-- C4: in a registry whose schemas all have a name, `get_step(id)` returns a
result (it does not leave defined behaviour); it returns the pointer to the
element at position `i` exactly when that element is named `id` and no
element before it is, so a later schema with the same name is never returned;
and it returns not-found exactly when no registered schema is named `id`. -/
theorem get_step_by_name_first_match (r : Registry) (id : String)
    (hnames : ∀ s ∈ r._steps, s._name.isSome = true) :
    (∃ res, r.get_step_by_name id = .ok res) ∧
    (∀ p : StepPtr, r.get_step_by_name id = .ok (some p) ↔
      (r._steps[p.index]? = some p.deref ∧ p.deref._name = some id ∧
        ∀ j, j < p.index → ∀ t, r._steps[j]? = some t → t._name ≠ some id)) ∧
    (r.get_step_by_name id = .ok none ↔ ∀ s ∈ r._steps, s._name ≠ some id) := by
  refine ⟨get_step_scan_defined _ 0 id hnames, ?_, get_step_scan_none _ 0 id hnames⟩
  intro p
  unfold Registry.get_step_by_name
  rw [get_step_scan_some _ 0 id hnames p]
  constructor
  · rintro ⟨k, hk1, hk2, hk3, hk4⟩
    have : p.index = k := by omega
    subst this
    exact ⟨hk2, hk3, hk4⟩
  · rintro ⟨h2, h3, h4⟩
    exact ⟨p.index, by omega, h2, h3, h4⟩

theorem duplicate_name_registry_named :
    ∀ s ∈ duplicate_name_registry._steps, s._name.isSome = true := by
  intro s hs
  simp [duplicate_name_registry, Registry.reg] at hs
  rcases hs with h | h | h <;> subst h <;> rfl

/-- Witness for C4: in a registry that holds the name `hello_world` at the
positions 0 and 2, the lookup of `hello_world` returns position 0, and the
lookup of an unregistered name returns not-found. -/
theorem get_step_by_name_first_match_witness :
    (∀ s ∈ duplicate_name_registry._steps, s._name.isSome = true) ∧
    ((∃ res, duplicate_name_registry.get_step_by_name "hello_world" = .ok res) ∧
     (∀ p : StepPtr, duplicate_name_registry.get_step_by_name "hello_world" = .ok (some p) ↔
      (duplicate_name_registry._steps[p.index]? = some p.deref ∧
        p.deref._name = some "hello_world" ∧
        ∀ j, j < p.index → ∀ t, duplicate_name_registry._steps[j]? = some t →
          t._name ≠ some "hello_world")) ∧
     (duplicate_name_registry.get_step_by_name "hello_world" = .ok none ↔
        ∀ s ∈ duplicate_name_registry._steps, s._name ≠ some "hello_world")) ∧
    (duplicate_name_registry.get_step_by_name "hello_world").toOption.join.map StepPtr.index
      = some 0 ∧
    (duplicate_name_registry.get_step_by_name "sum").toOption.map (Option.map StepPtr.index)
      = some none :=
  ⟨duplicate_name_registry_named,
   get_step_by_name_first_match duplicate_name_registry "hello_world"
     duplicate_name_registry_named,
   by decide, by decide⟩

/-- C5: `reg` appends and never fails. For a registry with `n` schemas
(`n + 1` representable as `unsigned int`) and any schema `s`, also one whose
name is already registered: afterwards `get_count` is `n + 1`, `get_step(n)`
points to `s`, `get_step(i)` is unchanged for every `i < n`, and
`get_step(i)` is not-found for every `i ≥ n + 1`. -/
theorem reg_appends (r : Registry) (s : RecipeStep)
    (hsize : r._steps.length + 1 < 2 ^ 32) :
    (r.reg s).get_count = r._steps.length + 1 ∧
    (r.reg s).get_step r._steps.length = some ⟨r._steps.length, s⟩ ∧
    (∀ i, i < r._steps.length → (r.reg s).get_step i = r.get_step i) ∧
    (∀ i, r._steps.length + 1 ≤ i → (r.reg s).get_step i = none) := by
  refine ⟨?_, ?_, ?_, ?_⟩
  · simp only [Registry.get_count, Registry.reg, List.length_append, List.length_singleton]
    exact Nat.mod_eq_of_lt hsize
  · simp [Registry.get_step, Registry.reg]
  · intro i hi
    have hi2 : i < (r._steps ++ [s]).length := by simp; omega
    simp only [Registry.get_step, Registry.reg, hi, hi2, dif_pos]
    rw [List.getElem_append_left hi]
  · intro i hi
    have hi2 : ¬ i < (r._steps ++ [s]).length := by simp; omega
    simp only [Registry.get_step, Registry.reg, hi2, dif_neg, not_false_eq_true]

/-- Witness for C5: registering a third schema, under a name that is already
registered, in a registry of two. -/
theorem reg_appends_witness :
    (((({} : Registry).reg hello_world_step).reg check_data_step).reg
        ⟨some step.hello_world, some always_same_code, some clear_values,
          some clear_values_code⟩).get_count = 2 + 1 ∧
    ((((({} : Registry).reg hello_world_step).reg check_data_step).reg
        ⟨some step.hello_world, some always_same_code, some clear_values,
          some clear_values_code⟩).get_step 2).map StepPtr.index = some 2 :=
  have h := reg_appends ((({} : Registry).reg hello_world_step).reg check_data_step)
    ⟨some step.hello_world, some always_same_code, some clear_values, some clear_values_code⟩
    (by decide)
  ⟨h.1, congrArg (Option.map StepPtr.index) h.2.1⟩

/-! ## The interpreter -/

theorem progress_calls_append (a b : List Call) :
    progress_calls (a ++ b) = progress_calls a ++ progress_calls b := by
  induction a with
  | nil => rfl
  | cons c rest ih => cases c <;> simp [progress_calls, ih]

theorem executed_positions_append (a b : List Call) :
    executed_positions (a ++ b) = executed_positions a ++ executed_positions b := by
  induction a with
  | nil => rfl
  | cons c rest ih => cases c <;> simp [executed_positions, ih]

theorem executor_returns_append (a b : List Call) :
    executor_returns (a ++ b) = executor_returns a ++ executor_returns b := by
  induction a with
  | nil => rfl
  | cons c rest ih => cases c <;> simp [executor_returns, ih]

theorem time_calls_append (a b : List Call) :
    time_calls (a ++ b) = time_calls a ++ time_calls b := by
  induction a with
  | nil => rfl
  | cons c rest ih => cases c <;> simp [time_calls, ih]

theorem progress_calls_print_keys (c : Conf) :
    progress_calls (c.map (fun kv => Call.print_key kv.1 kv.2)) = [] := by
  induction c with
  | nil => rfl
  | cons kv rest ih => simp [progress_calls, ih]

theorem executed_positions_print_keys (c : Conf) :
    executed_positions (c.map (fun kv => Call.print_key kv.1 kv.2)) = [] := by
  induction c with
  | nil => rfl
  | cons kv rest ih => simp [executed_positions, ih]

theorem executor_returns_print_keys (c : Conf) :
    executor_returns (c.map (fun kv => Call.print_key kv.1 kv.2)) = [] := by
  induction c with
  | nil => rfl
  | cons kv rest ih => simp [executor_returns, ih]

theorem time_calls_print_keys (c : Conf) :
    time_calls (c.map (fun kv => Call.print_key kv.1 kv.2)) = [] := by
  induction c with
  | nil => rfl
  | cons kv rest ih => simp [time_calls, ih]

/-- While the executors return true the loop of `run` goes on: one progress
call and one executor call per instance, and the model is handed on. -/
theorem run_loop_continue (clock : Nat → Int) (pre rest : List RecipeStepInstance)
    (i tick : Nat) (m : Model) (hpre : all_continue pre m = true) :
    (run_loop clock (pre ++ rest) i tick m).model
      = (run_loop clock rest (i + pre.length) (tick + 2 * pre.length)
          (apply_executors pre m)).model ∧
    (run_loop clock (pre ++ rest) i tick m).status
      = (run_loop clock rest (i + pre.length) (tick + 2 * pre.length)
          (apply_executors pre m)).status ∧
    progress_calls (run_loop clock (pre ++ rest) i tick m).calls
      = ((pre.map (fun s => s._step._name)).enumFrom i).map (fun p => (p.1 % 2 ^ 32, p.2))
        ++ progress_calls (run_loop clock rest (i + pre.length) (tick + 2 * pre.length)
          (apply_executors pre m)).calls ∧
    executed_positions (run_loop clock (pre ++ rest) i tick m).calls
      = List.range' i pre.length
        ++ executed_positions (run_loop clock rest (i + pre.length) (tick + 2 * pre.length)
          (apply_executors pre m)).calls := by
  induction pre generalizing i tick m with
  | nil => simp [apply_executors]
  | cons s pre ih =>
    cases he : s._step._execute with
    | none => simp [all_continue, he] at hpre
    | some f =>
      simp only [all_continue, he, Bool.and_eq_true] at hpre
      obtain ⟨hret, hrest⟩ := hpre
      obtain ⟨h1, h2, h3, h4⟩ := ih (i + 1) (tick + 2) (f s._config m).model hrest
      have e1 : i + 1 + pre.length = i + (s :: pre).length := by simp; omega
      have e2 : tick + 2 + 2 * pre.length = tick + 2 * (s :: pre).length := by simp; omega
      rw [e1, e2] at h1 h2 h3 h4
      simp only [List.cons_append, run_loop, RecipeStepInstance.execute, he, hret,
        apply_executors, Bool.not_true, Bool.false_eq_true, if_false]
      refine ⟨h1, h2, ?_, ?_⟩
      · simp only [List.cons_append, progress_calls, progress_calls_append,
          progress_calls_print_keys, List.nil_append, List.map_cons, List.enumFrom_cons]
        exact congrArg (List.cons (i % 2 ^ 32, s._step._name)) h3
      · simp only [List.cons_append, executed_positions, executed_positions_append,
          executed_positions_print_keys, List.nil_append, List.range'_succ,
          List.length_cons]
        exact congrArg (List.cons i) h4

theorem apply_executors_append (a b : List RecipeStepInstance) (m : Model) :
    apply_executors (a ++ b) m = apply_executors b (apply_executors a m) := by
  induction a generalizing m with
  | nil => rfl
  | cons s rest ih =>
    cases he : s._step._execute <;> simp [apply_executors, he, ih]

theorem all_continue_append (a b : List RecipeStepInstance) (m : Model) :
    all_continue (a ++ b) m = (all_continue a m && all_continue b (apply_executors a m)) := by
  induction a generalizing m with
  | nil => simp [all_continue, apply_executors]
  | cons s rest ih =>
    cases he : s._step._execute <;> simp [all_continue, apply_executors, he, ih, Bool.and_assoc]

theorem take_succ_of_getElem? {α : Type} (l : List α) (k : Nat) (x : α) (h : l[k]? = some x) :
    l.take (k + 1) = l.take k ++ [x] := by
  rw [List.take_succ, h]
  rfl

theorem split_at_getElem? {α : Type} (l : List α) (k : Nat) (x : α) (h : l[k]? = some x) :
    l = l.take k ++ x :: l.drop (k + 1) := by
  have hk : k < l.length := by
    rcases Nat.lt_or_ge k l.length with hlt | hge
    · exact hlt
    · rw [List.getElem?_eq_none hge] at h
      cases h
  have hx : l[k] = x := by
    rw [List.getElem?_eq_getElem hk] at h
    injection h
  have hd : l.drop k = x :: l.drop (k + 1) := by
    rw [← hx]
    exact List.drop_eq_getElem_cons hk
  calc l = l.take k ++ l.drop k := (List.take_append_drop k l).symm
    _ = l.take k ++ x :: l.drop (k + 1) := by rw [hd]

theorem length_take_of_getElem? {α : Type} (l : List α) (k : Nat) (x : α)
    (h : l[k]? = some x) : (l.take k).length = k := by
  have hk : k < l.length := by
    rcases Nat.lt_or_ge k l.length with hlt | hge
    · exact hlt
    · rw [List.getElem?_eq_none hge] at h
      cases h
  rw [List.length_take]
  omega

theorem returns_at_some (steps : List RecipeStepInstance) (j : Nat) (b : Bool)
    (h : returns_at steps j = some b) :
    ∃ s f, steps[j]? = some s ∧ s._step._execute = some f ∧
      (f s._config (apply_executors (steps.take j) {})).ret = b := by
  unfold returns_at at h
  cases hs : steps[j]? with
  | none => simp [hs] at h
  | some s =>
    cases he : s._step._execute with
    | none => simp [hs, he] at h
    | some f =>
      simp only [hs, he] at h
      injection h with h
      exact ⟨s, f, rfl, he, h⟩

theorem all_continue_take (steps : List RecipeStepInstance) (k : Nat)
    (h : ∀ j, j < k → returns_at steps j = some true) :
    all_continue (steps.take k) {} = true := by
  induction k with
  | zero => simp [all_continue]
  | succ k ih =>
    have hprev := ih (fun j hj => h j (by omega))
    obtain ⟨s, f, hs, he, hret⟩ := returns_at_some steps k true (h k (by omega))
    rw [take_succ_of_getElem? steps k s hs, all_continue_append, hprev]
    simp [all_continue, he, hret]

theorem enum_names_mod (l : List (Option String)) (h : l.length ≤ 2 ^ 32) :
    (l.enumFrom 0).map (fun p => (p.1 % 2 ^ 32, p.2)) = l.enum := by
  have hid : ∀ p ∈ l.enumFrom 0, (fun p : Nat × Option String => (p.1 % 2 ^ 32, p.2)) p = id p := by
    intro p hp
    have hlt : p.1 < l.length := List.fst_lt_of_mem_enum hp
    have hmod : p.1 % 2 ^ 32 = p.1 := Nat.mod_eq_of_lt (by omega)
    show (p.1 % 2 ^ 32, p.2) = p
    rw [hmod]
  rw [List.map_congr_left hid]
  simp [List.enum]

/-- C1: in a recipe of fewer than `2^31` instances, when the executors of the
instances `0..k-1` return true and the executor of instance `k` returns
false, `run` calls the progress callback exactly `k + 1` times, with
`(0, name_0), ..., (k, name_k)` in that order, calls the executors of the
instances `0..k` and of no later one, and ends with the model obtained by
applying the executors of the instances `0..k` in order to a fresh `Model`;
when every executor returns true, progress is called once per instance and
the final model is the fold of all executors. -/
theorem run_abort_propagation (clock : Nat → Int) (r : Recipe)
    (hint : r._steps.length < 2 ^ 31) :
    (∀ k, (∀ j, j < k → returns_at r._steps j = some true) →
        returns_at r._steps k = some false →
      progress_calls (run clock r).calls
        = ((r._steps.take (k + 1)).map (fun s => s._step._name)).enum ∧
      (progress_calls (run clock r).calls).length = k + 1 ∧
      executed_positions (run clock r).calls = List.range (k + 1) ∧
      (run clock r).model = apply_executors (r._steps.take (k + 1)) {} ∧
      (run clock r).status = Status.stopped) ∧
    ((∀ j, j < r._steps.length → returns_at r._steps j = some true) →
      progress_calls (run clock r).calls = (r._steps.map (fun s => s._step._name)).enum ∧
      (progress_calls (run clock r).calls).length = r._steps.length ∧
      executed_positions (run clock r).calls = List.range r._steps.length ∧
      (run clock r).model = apply_executors r._steps {} ∧
      (run clock r).status = Status.finished) := by
  have hsize : r._steps.length ≤ 2 ^ 32 := by omega
  constructor
  · intro k hbefore hk
    obtain ⟨s, f, hs, he, hret⟩ := returns_at_some r._steps k false hk
    have hpre := all_continue_take r._steps k hbefore
    have hlen := length_take_of_getElem? r._steps k s hs
    have hklt : k < r._steps.length := by
      have := List.length_take_le k r._steps
      rcases Nat.lt_or_ge k r._steps.length with hlt | hge
      · exact hlt
      · rw [List.getElem?_eq_none hge] at hs
        cases hs
    obtain ⟨h1, h2, h3, h4⟩ :=
      run_loop_continue clock (r._steps.take k) (s :: r._steps.drop (k + 1)) 0 0 {} hpre
    rw [← split_at_getElem? r._steps k s hs, hlen] at h1 h2 h3 h4
    simp only [run_loop, RecipeStepInstance.execute, he, hret, Bool.not_false, if_true,
      Nat.zero_add] at h1 h2 h3 h4
    have htake := take_succ_of_getElem? r._steps k s hs
    have hprog : progress_calls (run clock r).calls
        = ((r._steps.take (k + 1)).map (fun s => s._step._name)).enum := by
      show progress_calls (run_loop clock r._steps 0 0 {}).calls = _
      rw [h3, htake, List.map_append, ← enum_names_mod, List.enumFrom_append, List.map_append]
      · simp only [progress_calls, List.append_eq, progress_calls_append,
          progress_calls_print_keys, List.length_map, hlen, List.enumFrom_singleton,
          List.map_cons, List.map_nil, List.append_nil, List.cons_append, List.nil_append,
          Nat.zero_add]
      · simp only [List.length_append, List.length_map, hlen, List.length_singleton]
        omega
    refine ⟨hprog, ?_, ?_, ?_, h2⟩
    · rw [hprog]
      simp [List.enum, List.enumFrom_length]
      omega
    · show executed_positions (run_loop clock r._steps 0 0 {}).calls = _
      rw [h4]
      simp [executed_positions, executed_positions_append, executed_positions_print_keys,
        List.range_succ, List.range_eq_range']
    · show (run_loop clock r._steps 0 0 {}).model = _
      rw [h1, htake, apply_executors_append]
      simp [apply_executors, he]
  · intro hall
    have hpre := all_continue_take r._steps r._steps.length hall
    rw [List.take_length] at hpre
    obtain ⟨h1, h2, h3, h4⟩ := run_loop_continue clock r._steps [] 0 0 {} hpre
    simp only [List.append_nil, run_loop, Nat.zero_add] at h1 h2 h3 h4
    have hprog : progress_calls (run clock r).calls
        = (r._steps.map (fun s => s._step._name)).enum := by
      show progress_calls (run_loop clock r._steps 0 0 {}).calls = _
      rw [h3, ← enum_names_mod]
      · simp [progress_calls]
      · simpa using hsize
    refine ⟨hprog, ?_, ?_, h1, h2⟩
    · rw [hprog]
      simp [List.enum, List.enumFrom_length]
    · show executed_positions (run_loop clock r._steps 0 0 {}).calls = _
      rw [h4]
      simp [executed_positions, List.range_eq_range']

/-- Witness for C1: in the recipe `hello_world, check_data, reset` the
executor of instance 1 returns false on the empty buffer; `run` reports the
instances 0 and 1, calls their two executors and stops. -/
theorem run_abort_propagation_witness :
    stopping_recipe._steps.length < 2 ^ 31 ∧
    (∀ j, j < 1 → returns_at stopping_recipe._steps j = some true) ∧
    returns_at stopping_recipe._steps 1 = some false ∧
    progress_calls (run steady_clock stopping_recipe).calls
      = [(0, some "hello_world"), (1, some "check_data")] ∧
    (progress_calls (run steady_clock stopping_recipe).calls).length = 1 + 1 ∧
    executed_positions (run steady_clock stopping_recipe).calls = [0, 1] ∧
    (run steady_clock stopping_recipe).model = {} ∧
    (run steady_clock stopping_recipe).status = Status.stopped :=
  have h0 : ∀ j, j < 1 → returns_at stopping_recipe._steps j = some true := by
    intro j hj
    have hj0 : j = 0 := by omega
    subst hj0
    decide
  have h := (run_abort_propagation steady_clock stopping_recipe (by decide)).1 1 h0
    (by decide)
  ⟨by decide, h0, by decide, h.1, h.2.1, h.2.2.1, h.2.2.2.1, h.2.2.2.2⟩

theorem run_loop_times (clock : Nat → Int) (steps : List RecipeStepInstance)
    (i tick : Nat) (m : Model) :
    executor_returns (run_loop clock steps i tick m).calls
      = List.replicate (time_calls (run_loop clock steps i tick m).calls).length true
        ++ (if (run_loop clock steps i tick m).status = Status.stopped then [false] else []) ∧
    (progress_calls (run_loop clock steps i tick m).calls).length
      = (time_calls (run_loop clock steps i tick m).calls).length
        + (if (run_loop clock steps i tick m).status = Status.finished then 0 else 1) := by
  induction steps generalizing i tick m with
  | nil => simp [run_loop, executor_returns, time_calls, progress_calls]
  | cons s rest ih =>
    cases he : s._step._execute with
    | none =>
      simp [run_loop, RecipeStepInstance.execute, he, executor_returns, time_calls,
        progress_calls, executor_returns_print_keys, time_calls_print_keys,
        progress_calls_print_keys]
    | some f =>
      cases hret : (f s._config m).ret with
      | false =>
        simp [run_loop, RecipeStepInstance.execute, he, hret, executor_returns, time_calls,
          progress_calls, executor_returns_append, time_calls_append, progress_calls_append,
          executor_returns_print_keys, time_calls_print_keys, progress_calls_print_keys]
      | true =>
        obtain ⟨h1, h2⟩ := ih (i + 1) (tick + 2) (f s._config m).model
        simp only [run_loop, RecipeStepInstance.execute, he, hret, Bool.not_true,
          Bool.false_eq_true, if_false, executor_returns, time_calls, progress_calls,
          List.append_eq, List.cons_append, List.nil_append,
          executor_returns_append, time_calls_append, progress_calls_append,
          executor_returns_print_keys, time_calls_print_keys, progress_calls_print_keys,
          List.length_cons, List.replicate_succ]
        refine ⟨congrArg (List.cons true) h1, ?_⟩
        rw [h2]
        omega

/-- C2, where the claim fails: in the recipe `hello_world, check_data, reset`
the executor of instance 1 returns false; `run` makes two progress calls and
two executor calls but only one time call. -/
theorem run_time_calls_fewer_on_stop :
    (time_calls (run steady_clock stopping_recipe).calls).length = 1 ∧
    (progress_calls (run steady_clock stopping_recipe).calls).length = 2 ∧
    (executed_positions (run steady_clock stopping_recipe).calls).length = 2 ∧
    (time_calls (run steady_clock stopping_recipe).calls).length
      ≠ (progress_calls (run steady_clock stopping_recipe).calls).length := by
  decide

/-- C2 as amended: `run` reports the elapsed time exactly once for each
executor call that returns true, and not for the call that returns false (nor
when the executor cannot be called): the executor returns are one `true` per
time call, followed by a single `false` when `run` was stopped; the time calls
are as many as the progress calls when the recipe was exhausted, and one fewer
otherwise. -/
theorem run_time_calls_per_continue (clock : Nat → Int) (r : Recipe) :
    executor_returns (run clock r).calls
      = List.replicate (time_calls (run clock r).calls).length true
        ++ (if (run clock r).status = Status.stopped then [false] else []) ∧
    ((run clock r).status = Status.finished →
      (time_calls (run clock r).calls).length = (progress_calls (run clock r).calls).length) ∧
    ((run clock r).status ≠ Status.finished →
      (time_calls (run clock r).calls).length + 1
        = (progress_calls (run clock r).calls).length) := by
  obtain ⟨h1, h2⟩ := run_loop_times clock r._steps 0 0 {}
  refine ⟨h1, ?_, ?_⟩
  · intro hfin
    have hfin2 : (run_loop clock r._steps 0 0 {}).status = Status.finished := hfin
    rw [hfin2] at h2
    simpa using h2.symm
  · intro hfin
    have hfin2 : (run_loop clock r._steps 0 0 {}).status ≠ Status.finished := hfin
    rw [if_neg hfin2] at h2
    exact h2.symm

/-! ## `Conf` -/

theorem assign_mem (c : Conf) (id : String) (v : CFloat) (p : String × CFloat)
    (hp : p ∈ Conf.assign c id v) : p.1 = id ∨ p ∈ c := by
  induction c with
  | nil =>
    simp only [Conf.assign, List.mem_singleton] at hp
    left; rw [hp]
  | cons e rest ih =>
    obtain ⟨k, w⟩ := e
    unfold Conf.assign at hp
    rcases Bool.eq_false_or_eq_true (check_c_char k id) with h1 | h1
    · simp only [h1, if_true, List.mem_cons] at hp
      rcases hp with h | h
      · right; rw [h]; exact List.mem_cons_self _ _
      · rcases ih h with h | h
        · left; exact h
        · right; exact List.mem_cons_of_mem _ h
    · rcases Bool.eq_false_or_eq_true (check_c_char id k) with h2 | h2
      · simp only [h1, h2, if_true, Bool.false_eq_true, if_false, List.mem_cons] at hp
        rcases hp with h | h | h
        · left; rw [h]
        · right; rw [h]; exact List.mem_cons_self _ _
        · right; exact List.mem_cons_of_mem _ h
      · have hk : k = id := check_c_char_total k id h1 h2
        simp only [h1, h2, Bool.false_eq_true, if_false, List.mem_cons] at hp
        rcases hp with h | h
        · left; rw [h, hk]
        · right; exact List.mem_cons_of_mem _ h

theorem assign_keys (c : Conf) (id : String) (v : CFloat) (k : String) :
    k ∈ (Conf.assign c id v).keys ↔ k = id ∨ k ∈ c.keys := by
  induction c with
  | nil => simp [Conf.assign, Conf.keys]
  | cons e rest ih =>
    obtain ⟨k0, w⟩ := e
    unfold Conf.assign
    rcases Bool.eq_false_or_eq_true (check_c_char k0 id) with h1 | h1
    · simp only [h1, if_true]
      simp only [Conf.keys, List.map_cons, List.mem_cons] at ih ⊢
      rw [ih]
      tauto
    · rcases Bool.eq_false_or_eq_true (check_c_char id k0) with h2 | h2
      · simp only [h1, h2, if_true, Bool.false_eq_true, if_false]
        simp [Conf.keys]
      · have hk : k0 = id := check_c_char_total k0 id h1 h2
        simp only [h1, h2, Bool.false_eq_true, if_false]
        simp only [Conf.keys, List.map_cons, List.mem_cons, hk]
        tauto

theorem assign_pairwise (c : Conf) (id : String) (v : CFloat)
    (hc : c.Pairwise (fun p q => check_c_char p.1 q.1 = true)) :
    (Conf.assign c id v).Pairwise (fun p q => check_c_char p.1 q.1 = true) := by
  induction c with
  | nil => simp [Conf.assign]
  | cons e rest ih =>
    obtain ⟨k, w⟩ := e
    rw [List.pairwise_cons] at hc
    obtain ⟨hhead, htail⟩ := hc
    unfold Conf.assign
    rcases Bool.eq_false_or_eq_true (check_c_char k id) with h1 | h1
    · simp only [h1, if_true]
      rw [List.pairwise_cons]
      refine ⟨?_, ih htail⟩
      intro q hq
      rcases assign_mem rest id v q hq with h | h
      · show check_c_char k q.1 = true
        rw [h]; exact h1
      · exact hhead q h
    · rcases Bool.eq_false_or_eq_true (check_c_char id k) with h2 | h2
      · simp only [h1, h2, if_true, Bool.false_eq_true, if_false]
        rw [List.pairwise_cons]
        refine ⟨?_, List.pairwise_cons.mpr ⟨hhead, htail⟩⟩
        intro q hq
        rcases List.mem_cons.mp hq with h | h
        · rw [h]; exact h2
        · exact check_c_char_trans id k q.1 h2 (hhead q h)
      · simp only [h1, h2, Bool.false_eq_true, if_false]
        rw [List.pairwise_cons]
        exact ⟨hhead, htail⟩

theorem find_assign_same (c : Conf) (id : String) (v : CFloat) :
    Conf.find (Conf.assign c id v) id = some v := by
  induction c with
  | nil => simp [Conf.assign, Conf.find, check_c_char_irrefl]
  | cons e rest ih =>
    obtain ⟨k, w⟩ := e
    unfold Conf.assign
    rcases Bool.eq_false_or_eq_true (check_c_char k id) with h1 | h1
    · simp only [h1, if_true, Conf.find]
      exact ih
    · rcases Bool.eq_false_or_eq_true (check_c_char id k) with h2 | h2
      · simp [h1, h2, Conf.find, check_c_char_irrefl]
      · simp [h1, h2, Conf.find]

theorem find_assign_other (c : Conf) (id : String) (v : CFloat) (k : String) (hne : id ≠ k) :
    Conf.find (Conf.assign c id v) k = Conf.find c k := by
  induction c with
  | nil =>
    simp only [Conf.assign, Conf.find]
    rcases Bool.eq_false_or_eq_true (check_c_char id k) with h1 | h1
    · simp [h1]
    · rcases Bool.eq_false_or_eq_true (check_c_char k id) with h2 | h2
      · simp [h1, h2]
      · exact absurd (check_c_char_total id k h1 h2) hne
  | cons e rest ih =>
    obtain ⟨k0, w⟩ := e
    unfold Conf.assign
    rcases Bool.eq_false_or_eq_true (check_c_char k0 id) with h1 | h1
    · simp only [h1, if_true, Conf.find]
      rw [ih]
    · rcases Bool.eq_false_or_eq_true (check_c_char id k0) with h2 | h2
      · simp only [h1, h2, if_true, Bool.false_eq_true, if_false]
        rcases Bool.eq_false_or_eq_true (check_c_char id k) with h3 | h3
        · simp only [Conf.find, h3, if_true]
        · rcases Bool.eq_false_or_eq_true (check_c_char k id) with h4 | h4
          · have h5 : check_c_char k k0 = true := check_c_char_trans k id k0 h4 h2
            have h6 : check_c_char k0 k = false := check_c_char_asymm k k0 h5
            simp [Conf.find, h3, h4, h5, h6]
          · exact absurd (check_c_char_total id k h3 h4) hne
      · have hk : k0 = id := check_c_char_total k0 id h1 h2
        simp only [h1, h2, Bool.false_eq_true, if_false]
        subst hk
        rcases Bool.eq_false_or_eq_true (check_c_char k0 k) with h3 | h3
        · simp only [Conf.find, h3, if_true]
        · rcases Bool.eq_false_or_eq_true (check_c_char k k0) with h4 | h4
          · simp [Conf.find, h3, h4]
          · exact absurd (check_c_char_total k0 k h3 h4) hne

theorem sorted_keys_ext (l1 l2 : List String)
    (h1 : l1.Pairwise (fun a b => check_c_char a b = true))
    (h2 : l2.Pairwise (fun a b => check_c_char a b = true))
    (hmem : ∀ k, k ∈ l1 ↔ k ∈ l2) : l1 = l2 := by
  induction l1 generalizing l2 with
  | nil =>
    cases l2 with
    | nil => rfl
    | cons b t2 => exact absurd ((hmem b).mpr (List.mem_cons_self _ _)) (List.not_mem_nil b)
  | cons a t1 ih =>
    cases l2 with
    | nil => exact absurd ((hmem a).mp (List.mem_cons_self _ _)) (List.not_mem_nil a)
    | cons b t2 =>
      rw [List.pairwise_cons] at h1 h2
      obtain ⟨ha, ht1⟩ := h1
      obtain ⟨hb, ht2⟩ := h2
      have hab : a = b := by
        rcases List.mem_cons.mp ((hmem a).mp (List.mem_cons_self _ _)) with h | h
        · exact h
        · rcases List.mem_cons.mp ((hmem b).mpr (List.mem_cons_self _ _)) with h' | h'
          · exact h'.symm
          · have hba : check_c_char b a = true := hb a h
            have habf : check_c_char a b = false := check_c_char_asymm b a hba
            rw [ha b h'] at habf
            cases habf
      subst hab
      have htails : ∀ k, k ∈ t1 ↔ k ∈ t2 := by
        intro k
        constructor
        · intro hk
          rcases List.mem_cons.mp ((hmem k).mp (List.mem_cons_of_mem _ hk)) with h | h
          · have hlt := ha k hk
            rw [h, check_c_char_irrefl] at hlt
            cases hlt
          · exact h
        · intro hk
          rcases List.mem_cons.mp ((hmem k).mpr (List.mem_cons_of_mem _ hk)) with h | h
          · have hlt := hb k hk
            rw [h, check_c_char_irrefl] at hlt
            cases hlt
          · exact h
      rw [ih t2 ht1 ht2 htails]

theorem configured_config (step : RecipeStep) (calls : List (String × CFloat)) :
    (configured step calls)._config
      = calls.foldl (fun c kv => Conf.assign c kv.1 kv.2) [] := by
  have hgen : ∀ (s0 : RecipeStepInstance),
      (calls.foldl (fun s kv => s.set_config kv.1 kv.2) s0)._config
        = calls.foldl (fun c kv => Conf.assign c kv.1 kv.2) s0._config := by
    induction calls with
    | nil => intro s0; rfl
    | cons kv rest ih =>
      intro s0
      simp only [List.foldl_cons]
      rw [ih]
      rfl
  exact hgen ⟨step, []⟩

theorem assign_all_pairwise (calls : List (String × CFloat)) (c : Conf)
    (hc : c.Pairwise (fun p q => check_c_char p.1 q.1 = true)) :
    (calls.foldl (fun c kv => Conf.assign c kv.1 kv.2) c).Pairwise
      (fun p q => check_c_char p.1 q.1 = true) := by
  induction calls generalizing c with
  | nil => exact hc
  | cons kv rest ih => exact ih _ (assign_pairwise c kv.1 kv.2 hc)

theorem assign_all_keys (calls : List (String × CFloat)) (c : Conf) (k : String) :
    k ∈ (calls.foldl (fun c kv => Conf.assign c kv.1 kv.2) c).keys
      ↔ k ∈ calls.map Prod.fst ∨ k ∈ c.keys := by
  induction calls generalizing c with
  | nil => simp
  | cons kv rest ih =>
    simp only [List.foldl_cons, List.map_cons, List.mem_cons]
    rw [ih, assign_keys]
    tauto

theorem assign_all_find (calls : List (String × CFloat)) (c : Conf) (k : String) :
    Conf.find (calls.foldl (fun c kv => Conf.assign c kv.1 kv.2) c) k
      = match last_value calls k with
        | some v => some v
        | none => Conf.find c k := by
  induction calls generalizing c with
  | nil => simp [last_value]
  | cons kv rest ih =>
    simp only [List.foldl_cons]
    rw [ih]
    simp only [last_value]
    cases hl : last_value rest k with
    | some v => rfl
    | none =>
      by_cases hk : kv.1 = k
      · simp only [hk, if_true]
        rw [← hk]
        exact find_assign_same c kv.1 kv.2
      · simp only [hk, if_false]
        exact find_assign_other c kv.1 kv.2 k hk

/-- C6: after any sequence of `set_config` calls on an instance, iterating its
`Conf` yields the keys in strictly increasing `strcmp` order; so each key
appears at most once, the keys are exactly the keys that were set, their
order is the same for any other sequence of calls that sets the same keys,
and the value found for a key is the value of the last call for that key. -/
theorem config_keys_strictly_increasing (step : RecipeStep)
    (calls : List (String × CFloat)) :
    (configured step calls)._config.keys.Pairwise (fun a b => strcmp a b < 0) ∧
    (configured step calls)._config.keys.Nodup ∧
    (∀ k, k ∈ (configured step calls)._config.keys ↔ k ∈ calls.map Prod.fst) ∧
    (∀ other : List (String × CFloat),
      (∀ k, k ∈ other.map Prod.fst ↔ k ∈ calls.map Prod.fst) →
      (configured step other)._config.keys = (configured step calls)._config.keys) ∧
    (∀ k, Conf.find (configured step calls)._config k = last_value calls k) := by
  have hsorted : ∀ cs : List (String × CFloat),
      (configured step cs)._config.keys.Pairwise (fun a b => check_c_char a b = true) := by
    intro cs
    rw [configured_config]
    unfold Conf.keys
    rw [List.pairwise_map]
    exact assign_all_pairwise cs [] List.Pairwise.nil
  have hkeys : ∀ (cs : List (String × CFloat)) (k : String),
      k ∈ (configured step cs)._config.keys ↔ k ∈ cs.map Prod.fst := by
    intro cs k
    rw [configured_config, assign_all_keys]
    simp [Conf.keys]
  refine ⟨?_, ?_, hkeys calls, ?_, ?_⟩
  · exact (hsorted calls).imp (fun h => (check_c_char_iff _ _).mp h)
  · refine (hsorted calls).imp ?_
    intro a b hab heq
    rw [heq, check_c_char_irrefl] at hab
    cases hab
  · intro other hother
    apply sorted_keys_ext _ _ (hsorted other) (hsorted calls)
    intro k
    rw [hkeys other k, hkeys calls k]
    exact hother k
  · intro k
    rw [configured_config, assign_all_find]
    cases last_value calls k <;> rfl

/-- The `Conf` of an instance after `set_config` of `b`, `a` and `b` again:
the keys are in `strcmp` order and `b` holds the value of the last call. -/
theorem configured_example :
    (configured check_data_step [("b", ⟨2⟩), ("a", ⟨1⟩), ("b", ⟨3⟩)])._config
      = [("a", ⟨1⟩), ("b", ⟨3⟩)] := by
  decide

/-! ## Recipe -/

/-- C7: in a recipe of fewer than `2^32` instances, configuring the instance
at `index < count` with `(key, value)` throws nothing and changes only the
entry `key` of that instance: it still references the same step, a lookup of
`key` yields `value`, the lookup of every other key is unchanged, all other
instances are unchanged, and so are the count and the order; for
`index ≥ count`, `get(index)` returns not-found and the recipe is unchanged. -/
theorem configure_changes_one_entry (r : Recipe) (index : Nat) (key : String) (v : CFloat)
    (hsize : r._steps.length < 2 ^ 32) :
    (index < r.count →
      (r.configure index key v).2 = none ∧
      (r.configure index key v).1.count = r.count ∧
      (r.configure index key v).1._steps.length = r._steps.length ∧
      (∀ j, j ≠ index → (r.configure index key v).1.get j = r.get j) ∧
      ∃ s s', r.get index = some s ∧ (r.configure index key v).1.get index = some s' ∧
        s'._step = s._step ∧
        Conf.find s'._config key = some v ∧
        ∀ k, k ≠ key → Conf.find s'._config k = Conf.find s._config k) ∧
    (r.count ≤ index →
      r.get index = none ∧ (r.configure index key v).1 = r) := by
  have hcount : r.count = r._steps.length := Nat.mod_eq_of_lt hsize
  constructor
  · intro hidx
    rw [hcount] at hidx
    have hget : r.get index = some r._steps[index] := by simp [Recipe.get, hidx]
    have hconf : r.configure index key v
        = ({ _steps := r._steps.set index (r._steps[index].set_config key v) }, none) := by
      simp [Recipe.configure, hget]
    rw [hconf]
    refine ⟨rfl, ?_, ?_, ?_, ?_⟩
    · simp [Recipe.count]
    · simp
    · intro j hj
      by_cases hjl : j < r._steps.length
      · have hjl2 : j < (r._steps.set index (r._steps[index].set_config key v)).length := by
          simpa using hjl
        simp only [Recipe.get, hjl, hjl2, dif_pos]
        rw [List.getElem_set_ne (Ne.symm hj)]
      · have hjl2 : ¬ j < (r._steps.set index (r._steps[index].set_config key v)).length := by
          simpa using hjl
        simp only [Recipe.get, hjl, hjl2, dif_neg, not_false_eq_true]
    · refine ⟨r._steps[index], r._steps[index].set_config key v, hget, ?_, rfl, ?_, ?_⟩
      · have hl2 : index < (r._steps.set index (r._steps[index].set_config key v)).length := by
          simpa using hidx
        simp only [Recipe.get, hl2, dif_pos]
        rw [List.getElem_set_self]
      · exact find_assign_same _ key v
      · intro k hk
        exact find_assign_other _ key v k (Ne.symm hk)
  · intro hidx
    rw [hcount] at hidx
    have hget : r.get index = none := by
      have : ¬ index < r._steps.length := by omega
      simp [Recipe.get, this]
    refine ⟨hget, ?_⟩
    simp [Recipe.configure, hget]

/-- Witness for C7: configuring instance 1 of a recipe of three instances,
and the out-of-range index 3. -/
theorem configure_changes_one_entry_witness :
    stopping_recipe._steps.length < 2 ^ 32 ∧
    (1 < stopping_recipe.count ∧
      (stopping_recipe.configure 1 "ref" ⟨7⟩).2 = none ∧
      (stopping_recipe.configure 1 "ref" ⟨7⟩).1.count = stopping_recipe.count) ∧
    (stopping_recipe.count ≤ 3 ∧
      stopping_recipe.get 3 = none ∧
      (stopping_recipe.configure 3 "ref" ⟨7⟩).1 = stopping_recipe) :=
  have h1 := configure_changes_one_entry stopping_recipe 1 "ref" ⟨7⟩ (by decide)
  have h3 := configure_changes_one_entry stopping_recipe 3 "ref" ⟨7⟩ (by decide)
  ⟨by decide,
   ⟨by decide, (h1.1 (by decide)).1, (h1.1 (by decide)).2.1⟩,
   ⟨by decide, (h3.2 (by decide)).1, (h3.2 (by decide)).2⟩⟩

/-- C8: for a recipe with `n` instances (`n + 1` representable as
`unsigned int`) and a step `s`, `add_step(s)` returns `n`; afterwards the
count is `n + 1`, `get(n)` is an instance that references `s` and has an
empty `Conf`, and the instances at the positions `0..n-1` are unchanged. -/
theorem add_step_appends (r : Recipe) (step : RecipeStep)
    (hsize : r._steps.length + 1 < 2 ^ 32) :
    (r.add_step step).2 = r._steps.length ∧
    (r.add_step step).1.count = r._steps.length + 1 ∧
    (r.add_step step).1.get r._steps.length = some ⟨step, []⟩ ∧
    (∀ i, i < r._steps.length → (r.add_step step).1.get i = r.get i) := by
  have hcount : (r.add_step step).1.count = r._steps.length + 1 := by
    simp only [Recipe.add_step, Recipe.count, List.length_append, List.length_singleton]
    exact Nat.mod_eq_of_lt hsize
  refine ⟨?_, hcount, ?_, ?_⟩
  · show ((r.add_step step).1.count + 2 ^ 32 - 1) % 2 ^ 32 = r._steps.length
    rw [hcount]
    have : r._steps.length + 1 + 2 ^ 32 - 1 = r._steps.length + 2 ^ 32 := by omega
    rw [this, Nat.add_mod_right]
    exact Nat.mod_eq_of_lt (by omega)
  · simp [Recipe.add_step, Recipe.get]
  · intro i hi
    have hi2 : i < (r._steps ++ [(⟨step, []⟩ : RecipeStepInstance)]).length := by
      simp; omega
    simp only [Recipe.add_step, Recipe.get, hi, hi2, dif_pos]
    rw [List.getElem_append_left hi]

/-- Witness for C8: adding a fourth instance to a recipe of three. -/
theorem add_step_appends_witness :
    stopping_recipe._steps.length + 1 < 2 ^ 32 ∧
    (stopping_recipe.add_step hello_world_step).2 = 3 ∧
    (stopping_recipe.add_step hello_world_step).1.count = 3 + 1 :=
  have h := add_step_appends stopping_recipe hello_world_step (by decide)
  ⟨by decide, h.1, h.2.1⟩

/-! ## Text output -/

theorem join_cons (x : String) (xs : List String) :
    String.join (x :: xs) = x ++ String.join xs := by
  apply String.ext
  simp [String.data_join]

theorem join_append (xs ys : List String) :
    String.join (xs ++ ys) = String.join xs ++ String.join ys := by
  apply String.ext
  simp [String.data_join]

theorem foldl_write {α : Type} (f : α → String) (l : List α) (stream : String) :
    l.foldl (fun st x => st ++ f x) stream = stream ++ String.join (l.map f) := by
  induction l generalizing stream with
  | nil => simp [String.join]
  | cons x rest ih =>
    simp only [List.foldl_cons, List.map_cons]
    rw [ih, join_cons, String.append_assoc]

theorem store_loop_eq (to_string : CFloat → String) (steps : List RecipeStepInstance)
    (file_stream : String) (hnames : ∀ s ∈ steps, s._step._name.isSome = true) :
    Recipe.store_loop to_string steps file_stream
      = .ok (file_stream ++ persisted_text to_string steps) := by
  induction steps generalizing file_stream with
  | nil => simp [Recipe.store_loop, persisted_text, String.join]
  | cons s rest ih =>
    have hrest : ∀ t ∈ rest, t._step._name.isSome = true :=
      fun t ht => hnames t (List.mem_cons_of_mem _ ht)
    have hs := hnames s (List.mem_cons_self _ _)
    cases hn : s._step._name with
    | none => simp [hn] at hs
    | some name =>
      have hentries : s._config.foldl
          (fun fs kv => fs ++ "-->" ++ kv.1 ++ ":" ++ to_string kv.2 ++ NL)
          (file_stream ++ name ++ NL)
          = (file_stream ++ name ++ NL) ++ String.join (s._config.map
              (fun kv => "-->" ++ kv.1 ++ ":" ++ to_string kv.2 ++ "\n")) := by
        rw [← foldl_write]
        simp only [String.append_assoc, NL]
      simp only [Recipe.store_loop, hn]
      rw [hentries]
      have hcase : (if (!s._config.isEmpty) = true then
            (file_stream ++ name ++ NL) ++ String.join (s._config.map
              (fun kv => "-->" ++ kv.1 ++ ":" ++ to_string kv.2 ++ "\n"))
          else file_stream ++ name ++ NL)
          = file_stream ++ persisted_instance to_string s := by
        cases hc : s._config with
        | nil => simp [persisted_instance, hn, hc, String.join, NL, String.append_assoc]
        | cons kv more =>
          simp [persisted_instance, hn, hc, NL, String.append_assoc]
      rw [hcase, ih _ hrest]
      simp only [persisted_text, List.map_cons, join_cons, String.append_assoc]

theorem configured_keys_increasing (step : RecipeStep) (calls : List (String × CFloat)) :
    (configured step calls)._config.keys.Pairwise (fun a b => strcmp a b < 0) := by
  rw [configured_config]
  unfold Conf.keys
  rw [List.pairwise_map]
  exact (assign_all_pairwise calls [] List.Pairwise.nil).imp
    (fun h => (check_c_char_iff _ _).mp h)

/-- C9: for a recipe whose steps all have a name, the text written by `store`
is the concatenation, over the instances in recipe order, of one line holding
the name of the step followed by one line `-->KEY:VALUE` for each entry of
the `Conf` of that instance in iteration order, with nothing between the
instances; an instance with an empty `Conf` contributes its name line only,
and the entries of an instance configured by `set_config` are in strictly
increasing key order. -/
theorem store_text_format (to_string : CFloat → String) (r : Recipe)
    (hnames : ∀ s ∈ r._steps, s._step._name.isSome = true) :
    r.store to_string
      = .ok (String.join (r._steps.map (fun s =>
          (s._step._name.getD "" ++ "\n") ++
            String.join (s._config.map
              (fun kv => "-->" ++ kv.1 ++ ":" ++ to_string kv.2 ++ "\n"))))) ∧
    (∀ s ∈ r._steps, s._config = [] →
      persisted_instance to_string s = s._step._name.getD "" ++ "\n") ∧
    (∀ s ∈ r._steps, ∀ step calls, s = configured step calls →
      s._config.keys.Pairwise (fun a b => strcmp a b < 0)) := by
  refine ⟨?_, ?_, ?_⟩
  · unfold Recipe.store
    rw [store_loop_eq to_string r._steps "" hnames]
    simp [persisted_text, persisted_instance]
    rfl
  · intro s _ hc
    simp [persisted_instance, hc, String.join]
  · intro s _ step calls hs
    rw [hs]
    exact configured_keys_increasing step calls

theorem configured_recipe_named :
    ∀ s ∈ configured_recipe._steps, s._step._name.isSome = true := by
  intro s hs
  simp only [configured_recipe, List.mem_cons, List.mem_singleton, List.not_mem_nil,
    or_false] at hs
  rcases hs with h | h <;> subst h <;> rfl

/-- Witness for C9: the text stored for `hello_world` followed by
`check_data` configured with `b` and then `a`. -/
theorem store_text_format_witness :
    (∀ s ∈ configured_recipe._steps, s._step._name.isSome = true) ∧
    configured_recipe.store show_bits
      = .ok "hello_world\ncheck_data\n-->a:1\n-->b:2\n" :=
  ⟨configured_recipe_named,
   (store_text_format show_bits configured_recipe configured_recipe_named).1.trans
     (congrArg Except.ok (by decide))⟩

/-! ## The inline code generator -/

theorem join_nil : String.join [] = "" := rfl

theorem create_code_step_eq (show_float : CFloat → String) (s : RecipeStepInstance)
    (stream : String) (hs : s.generable) :
    create_code_step show_float cleanup_lines s stream
      = .ok (stream ++ inline_block show_float s) := by
  obtain ⟨hname, hinfo, hcode, hstop⟩ := hs
  cases hn : s._step._name with
  | none => simp [hn] at hname
  | some name =>
    cases hi : s._step._info with
    | none => simp [hi] at hinfo
    | some describe =>
      cases hc : s._step._code with
      | none => simp [hc] at hcode
      | some emit =>
        have hdesc : described s = describe {} := by simp [described, hi]
        have hmk : s.make_code [] {} = .ok (emit s._config [] {}) := by
          simp [RecipeStepInstance.make_code, hc]
        have hemit : emitted s = emit s._config [] {} := by simp [emitted, hmk]
        rw [hdesc] at hstop
        unfold create_code_step
        simp only [hmk, hn, hi]
        unfold inline_block inline_lead inline_code_text
        rw [hemit, hdesc]
        generalize emit s._config [] {} = produced at *
        obtain ⟨code, info⟩ := produced
        generalize describe {} = stepInfo at *
        cases hscope : info.needs_scope <;> cases hret : stepInfo.returns_stop
        · simp only [hn, Option.getD_some, block_tabs, hscope, Bool.false_eq_true, if_false,
            NL, String.append_assoc, foldl_write, String.append_empty]
        · have hv := hstop hret
          cases hvar : stepInfo.stop_variable with
          | none => simp [hvar] at hv
          | some stop_variable =>
            simp only [hn, Option.getD_some, block_tabs, hscope, Bool.false_eq_true, if_false,
              if_true, NL, String.append_assoc, foldl_write, String.append_empty,
              abort_guard, cleanup_lines, List.map_cons, List.map_nil, List.cons_append,
              List.nil_append, join_cons, join_nil]
        · simp only [hn, Option.getD_some, block_tabs, hscope, Bool.false_eq_true, if_false,
            if_true, NL, String.append_assoc, foldl_write, String.append_empty,
            String.empty_append]
        · have hv := hstop hret
          cases hvar : stepInfo.stop_variable with
          | none => simp [hvar] at hv
          | some stop_variable =>
            simp only [hn, Option.getD_some, block_tabs, hscope, Bool.false_eq_true, if_false,
              if_true, NL, String.append_assoc, foldl_write, String.append_empty,
              abort_guard, cleanup_lines, List.map_cons, List.map_nil, List.cons_append,
              List.nil_append, join_cons, join_nil]

theorem create_code_loop_eq (show_float : CFloat → String) (steps : List RecipeStepInstance)
    (stream : String) (hsteps : ∀ s ∈ steps, s.generable) :
    create_code_loop show_float cleanup_lines steps stream
      = .ok (stream ++ String.join (steps.map (inline_block show_float))) := by
  induction steps generalizing stream with
  | nil => simp [create_code_loop, join_nil]
  | cons s rest ih =>
    have hrest : ∀ t ∈ rest, t.generable := fun t ht => hsteps t (List.mem_cons_of_mem _ ht)
    simp only [create_code_loop, create_code_step_eq show_float s stream
      (hsteps s (List.mem_cons_self _ _)), ih _ hrest, List.map_cons, join_cons,
      String.append_assoc]

/-- The inline artifact of a recipe whose instances can all be handed to the
generator: head, the blocks of the instances in recipe order, tail. -/
theorem create_code_eq (timestamp : String) (show_float : CFloat → String) (r : Recipe)
    (hsteps : ∀ s ∈ r._steps, s.generable) :
    create_code timestamp show_float r
      = .ok (inline_head timestamp ++ String.join (r._steps.map (inline_block show_float))
          ++ inline_tail) := by
  have hcleanup : Model.cleanup_code ["// cleanup"] = cleanup_lines := rfl
  have hsetup : Model.setup_code [] = setup_lines := rfl
  unfold create_code
  simp only [hcleanup, hsetup, Recipe.all]
  rw [create_code_loop_eq show_float r._steps _ hsteps]
  simp only [inline_head, inline_tail, NL, String.append_assoc, foldl_write,
    String.empty_append]

/-- C10: for a recipe whose instances can all be handed to the generator,
`create_code` writes one block per instance between head and tail; the block
of an instance is its lead, then its emitted code lines, then, if and only if
the describer sets `returns_stop`, the abort guard (the line
`if (!<stop_variable>) {`, the cleanup lines, `return 0;` and `}`), and only
then the closing brace of the scope when the emitter asks for a scope: the
guard comes directly after the emitted lines and inside their scope. -/
theorem create_code_abort_guard (timestamp : String) (show_float : CFloat → String)
    (r : Recipe) (hsteps : ∀ s ∈ r._steps, s.generable) :
    ∃ blocks : List String,
      create_code timestamp show_float r
        = .ok (inline_head timestamp ++ String.join blocks ++ inline_tail) ∧
      blocks.length = r._steps.length ∧
      ∀ (i : Nat) (s : RecipeStepInstance), r._steps[i]? = some s →
        blocks[i]? = some
          (inline_lead show_float s ++
            String.join ((emitted s).1.map
              (fun line => block_tabs (emitted s).2 ++ line ++ "\n")) ++
            (if (described s).returns_stop = true then
              String.join
                ((["if (!" ++ (described s).stop_variable.getD "" ++ ") \x7b"]
                    ++ cleanup_lines.map (fun line => "\t" ++ line)
                    ++ ["\treturn 0;", "\x7d"]).map
                  (fun line => block_tabs (emitted s).2 ++ line ++ "\n"))
             else "") ++
            (if (emitted s).2.needs_scope = true then "\t\x7d" ++ "\n" else "")) := by
  refine ⟨r._steps.map (inline_block show_float),
    create_code_eq timestamp show_float r hsteps, by simp, ?_⟩
  intro i s hi
  rw [List.getElem?_map, hi]
  rfl

theorem stopping_recipe_generable : ∀ s ∈ stopping_recipe._steps, s.generable := by
  intro s hs
  simp only [stopping_recipe, List.mem_cons, List.mem_singleton, List.not_mem_nil,
    or_false] at hs
  rcases hs with h | h | h <;> subst h <;>
    exact ⟨rfl, rfl, rfl, by decide⟩

set_option maxRecDepth 100000 in
/-- Witness for C10: in the artifact of `hello_world, check_data, reset` the
block of `check_data` is scoped and carries the guard on `populated` between
its code line and the closing brace of the scope. -/
theorem create_code_abort_guard_witness :
    (∀ s ∈ stopping_recipe._steps, s.generable) ∧
    ∃ blocks : List String,
      create_code "T" show_bits stopping_recipe
        = .ok (inline_head "T" ++ String.join blocks ++ inline_tail) ∧
      blocks.length = 3 ∧
      blocks[0]? = some "\n\t// hello_world\n\tstd::cout << \"Hello World !\\n\";\n" ∧
      blocks[1]? = some
        ("\n\t\x7b\n\t\t// check_data\n\t\tconst auto populated = !data.empty();\n"
          ++ "\t\tif (!populated) \x7b\n\t\t\t// cleanup\n\t\t\tdata.clear();\n"
          ++ "\t\t\tdata.shrink_to_fit();\n\t\t\treturn 0;\n\t\t\x7d\n\t\x7d\n") :=
  ⟨stopping_recipe_generable,
   match create_code_abort_guard "T" show_bits stopping_recipe stopping_recipe_generable with
   | ⟨blocks, h1, h2, h3⟩ =>
     ⟨blocks, h1, h2,
      (h3 0 ⟨hello_world_step, []⟩ rfl).trans (congrArg some (by decide)),
      (h3 1 ⟨check_data_step, []⟩ rfl).trans (congrArg some (by decide))⟩⟩

theorem inline_head_text (timestamp : String) :
    inline_head timestamp
      = "// " ++ timestamp ++
        ("\n#include<vector>\n#include<iostream>\n\nint main() \x7b\n\n"
          ++ "\tstd::vector<float> data;\n\tauto res = .0f;\n") := by
  simp only [inline_head, String.append_assoc]
  exact congrArg (fun t => "// " ++ (timestamp ++ t)) (by decide)

theorem inline_tail_text :
    inline_tail
      = "\n\t// cleanup\n\tdata.clear();\n\tdata.shrink_to_fit();\n\n\treturn 0;\n\x7d\n" := by
  decide

/-- C11: for every recipe whose instances can be handed to the generator,
also the empty one and one whose instances are all abort-capable, the text of
`create_code` ends, after the block of the last instance, with an empty line,
the cleanup lines `// cleanup`, `data.clear();`, `data.shrink_to_fit();`
outside any guard, an empty line, `return 0;` and the closing brace of `main`;
and the text before the block of the first instance ends with the two
domain-state setup lines, which follow the timestamp comment, the include
lines and the opening of `main`. -/
theorem create_code_setup_and_cleanup (timestamp : String) (show_float : CFloat → String)
    (r : Recipe) (hsteps : ∀ s ∈ r._steps, s.generable) :
    create_code timestamp show_float r
      = .ok (("// " ++ timestamp ++
              ("\n#include<vector>\n#include<iostream>\n\nint main() \x7b\n\n"
                ++ "\tstd::vector<float> data;\n\tauto res = .0f;\n"))
          ++ String.join (r._steps.map (inline_block show_float))
          ++ "\n\t// cleanup\n\tdata.clear();\n\tdata.shrink_to_fit();\n\n\treturn 0;\n\x7d\n") ∧
    create_code timestamp show_float {}
      = .ok (("// " ++ timestamp ++
              ("\n#include<vector>\n#include<iostream>\n\nint main() \x7b\n\n"
                ++ "\tstd::vector<float> data;\n\tauto res = .0f;\n"))
          ++ "\n\t// cleanup\n\tdata.clear();\n\tdata.shrink_to_fit();\n\n\treturn 0;\n\x7d\n") := by
  constructor
  · rw [create_code_eq timestamp show_float r hsteps, inline_head_text, inline_tail_text]
  · have hempty : ∀ s ∈ ({} : Recipe)._steps, s.generable := by
      intro s hs
      cases hs
    rw [create_code_eq timestamp show_float {} hempty, inline_head_text, inline_tail_text]
    simp [join_nil]

/-- A recipe whose two instances are both abort-capable. -/
theorem all_abort_recipe_generable :
    ∀ s ∈ ({ _steps := [⟨check_data_step, []⟩, ⟨check_data_step, []⟩] } : Recipe)._steps,
      s.generable := by
  intro s hs
  simp only [List.mem_cons, List.mem_singleton, List.not_mem_nil, or_false] at hs
  rcases hs with h | h <;> subst h <;> exact ⟨rfl, rfl, rfl, by decide⟩

/-- Witness for C11: the head and the tail of the artifact of a recipe whose
two instances are both abort-capable. -/
theorem create_code_setup_and_cleanup_witness :
    (∀ s ∈ ({ _steps := [⟨check_data_step, []⟩, ⟨check_data_step, []⟩] } : Recipe)._steps,
      s.generable) ∧
    create_code "T" show_bits { _steps := [⟨check_data_step, []⟩, ⟨check_data_step, []⟩] }
      = .ok (("// " ++ "T" ++
              ("\n#include<vector>\n#include<iostream>\n\nint main() \x7b\n\n"
                ++ "\tstd::vector<float> data;\n\tauto res = .0f;\n"))
          ++ String.join (([⟨check_data_step, []⟩, ⟨check_data_step, []⟩] :
                List RecipeStepInstance).map (inline_block show_bits))
          ++ "\n\t// cleanup\n\tdata.clear();\n\tdata.shrink_to_fit();\n\n\treturn 0;\n\x7d\n") :=
  ⟨all_abort_recipe_generable,
   (create_code_setup_and_cleanup "T" show_bits
      { _steps := [⟨check_data_step, []⟩, ⟨check_data_step, []⟩] }
      all_abort_recipe_generable).1⟩

/-- C20: for every recipe whose instances can be handed to the generator,
`create_code` writes one block per instance, in recipe order, between head
and tail. After the separating empty line the block is: a comment line naming
the step, one comment line `// KEY : VALUE` per `Conf` entry in iteration
order (strictly increasing keys for an instance configured by `set_config`),
then the code lines of the emitter, verbatim and in the order of the emitter,
each only after the indentation, then the abort guard when the describer sets
`returns_stop`. The block starts with the line `{` and ends with the line `}`,
and its indentation is two tabs instead of one, if and only if the emitter
sets `needs_scope`. -/
theorem create_code_block_layout (timestamp : String) (show_float : CFloat → String)
    (r : Recipe) (hsteps : ∀ s ∈ r._steps, s.generable) :
    ∃ blocks : List String,
      create_code timestamp show_float r
        = .ok (inline_head timestamp ++ String.join blocks ++ inline_tail) ∧
      blocks.length = r._steps.length ∧
      (∀ (i : Nat) (s : RecipeStepInstance), r._steps[i]? = some s →
        blocks[i]? = some
          ("\n" ++ (if (emitted s).2.needs_scope = true then "\t\x7b" ++ "\n" else "") ++
            ((if (emitted s).2.needs_scope = true then "\t\t" else "\t")
              ++ "// " ++ s._step._name.getD "" ++ "\n") ++
            String.join (s._config.map (fun kv =>
              (if (emitted s).2.needs_scope = true then "\t\t" else "\t")
                ++ "// " ++ kv.1 ++ " : " ++ show_float kv.2 ++ "\n")) ++
            String.join ((emitted s).1.map (fun line =>
              (if (emitted s).2.needs_scope = true then "\t\t" else "\t") ++ line ++ "\n")) ++
            (if (described s).returns_stop = true then
              abort_guard (if (emitted s).2.needs_scope = true then "\t\t" else "\t")
                ((described s).stop_variable.getD "")
             else "") ++
            (if (emitted s).2.needs_scope = true then "\t\x7d" ++ "\n" else ""))) ∧
      (∀ s ∈ r._steps, ∀ step calls, s = configured step calls →
        s._config.keys.Pairwise (fun a b => strcmp a b < 0)) := by
  refine ⟨r._steps.map (inline_block show_float),
    create_code_eq timestamp show_float r hsteps, by simp, ?_, ?_⟩
  · intro i s hi
    rw [List.getElem?_map, hi]
    rfl
  · intro s _ step calls hs
    rw [hs]
    exact configured_keys_increasing step calls

/-- A recipe of two instances: `hello_world` configured with the keys `b` and
`a`, whose emitter asks for no scope, and `check_data`, whose emitter does. -/
theorem layout_recipe_generable :
    ∀ s ∈ ({ _steps := [configured hello_world_step [("b", ⟨2⟩), ("a", ⟨1⟩)],
                         ⟨check_data_step, []⟩] } : Recipe)._steps, s.generable := by
  intro s hs
  simp only [List.mem_cons, List.mem_singleton, List.not_mem_nil, or_false] at hs
  rcases hs with h | h <;> subst h <;> exact ⟨rfl, rfl, rfl, by decide⟩

set_option maxRecDepth 100000 in
/-- Witness for C20: the unscoped block of a configured `hello_world` and the
scoped block of `check_data`. -/
theorem create_code_block_layout_witness :
    (∀ s ∈ ({ _steps := [configured hello_world_step [("b", ⟨2⟩), ("a", ⟨1⟩)],
                         ⟨check_data_step, []⟩] } : Recipe)._steps, s.generable) ∧
    ∃ blocks : List String,
      create_code "T" show_bits
          { _steps := [configured hello_world_step [("b", ⟨2⟩), ("a", ⟨1⟩)],
                       ⟨check_data_step, []⟩] }
        = .ok (inline_head "T" ++ String.join blocks ++ inline_tail) ∧
      blocks[0]? = some
        "\n\t// hello_world\n\t// a : 1\n\t// b : 2\n\tstd::cout << \"Hello World !\\n\";\n" ∧
      blocks[1]? = some
        ("\n\t\x7b\n\t\t// check_data\n\t\tconst auto populated = !data.empty();\n"
          ++ "\t\tif (!populated) \x7b\n\t\t\t// cleanup\n\t\t\tdata.clear();\n"
          ++ "\t\t\tdata.shrink_to_fit();\n\t\t\treturn 0;\n\t\t\x7d\n\t\x7d\n") :=
  ⟨layout_recipe_generable,
   match create_code_block_layout "T" show_bits
      { _steps := [configured hello_world_step [("b", ⟨2⟩), ("a", ⟨1⟩)],
                   ⟨check_data_step, []⟩] } layout_recipe_generable with
   | ⟨blocks, h1, _, h3, _⟩ =>
     ⟨blocks, h1,
      (h3 0 (configured hello_world_step [("b", ⟨2⟩), ("a", ⟨1⟩)]) rfl).trans
        (congrArg some (by decide)),
      (h3 1 ⟨check_data_step, []⟩ rfl).trans (congrArg some (by decide))⟩⟩

/-! ## The function code generator -/

theorem get_of_split (r : Recipe) (pre post : List RecipeStepInstance) (s : RecipeStepInstance)
    (h : r._steps = pre ++ s :: post) : r.get pre.length = some s := by
  have hlt : pre.length < r._steps.length := by rw [h]; simp
  simp only [Recipe.get, hlt, dif_pos]
  congr 1
  simp only [h]
  rw [List.getElem_append_right (Nat.le_refl _)]
  simp

theorem for_each_step_range' {σ : Type} (r : Recipe)
    (body : Nat → RecipeStepInstance → σ → Except Fault σ)
    (pre post : List RecipeStepInstance) (h : r._steps = pre ++ post) (state : σ) :
    for_each_step r body (List.range' pre.length post.length) state
      = for_each_pair body (post.enumFrom pre.length) state := by
  induction post generalizing pre state with
  | nil => simp [for_each_step, for_each_pair]
  | cons s post ih =>
    have hget := get_of_split r pre post s h
    have h2 : r._steps = (pre ++ [s]) ++ post := by rw [h]; simp
    have ih2 := ih (pre ++ [s]) h2
    simp only [List.length_append, List.length_singleton] at ih2
    simp only [List.length_cons, List.range'_succ, for_each_step, hget, List.enumFrom_cons,
      for_each_pair]
    cases body pre.length s state with
    | error f => rfl
    | ok state2 => exact ih2 state2

/-- In a recipe of fewer than `2^32` instances both loops of
`create_code_func` visit every instance, in recipe order, with its position. -/
theorem for_each_step_count {σ : Type} (r : Recipe)
    (body : Nat → RecipeStepInstance → σ → Except Fault σ)
    (hsize : r._steps.length < 2 ^ 32) (state : σ) :
    for_each_step r body (List.range r.count) state
      = for_each_pair body r._steps.enum state := by
  have hcount : r.count = r._steps.length := Nat.mod_eq_of_lt hsize
  rw [hcount, List.range_eq_range']
  exact for_each_step_range' r body [] r._steps rfl state

theorem func_name_eq (i : Nat) (s : RecipeStepInstance) (hs : s.emittable) :
    func_name s._step (described s) i = .ok (derived_name i s) := by
  obtain ⟨hname, _, _⟩ := hs
  cases hn : s._step._name with
  | none => simp [hn] at hname
  | some name =>
    unfold func_name derived_name
    simp only [hn, Option.getD_some]
    cases (described s).always_same_code <;> simp

theorem header_step_eq (show_float : CFloat → String) (i : Nat) (s : RecipeStepInstance)
    (state : HeaderState) (hs : s.emittable) :
    create_code_func_header_step show_float i s state
      = if derived_name i s ∈ state.func_names then .ok state
        else .ok ⟨state.header_stream ++ function_text show_float (i, s),
          derived_name i s :: state.func_names⟩ := by
  have hfn := func_name_eq i s hs
  obtain ⟨hname, hinfo, hcode⟩ := hs
  cases hi : s._step._info with
  | none => simp [hi] at hinfo
  | some describe =>
    cases hc : s._step._code with
    | none => simp [hc] at hcode
    | some emit =>
      have hdesc : described s = describe {} := by simp [described, hi]
      have hmk : s.make_code [] {} = .ok (emit s._config [] {}) := by
        simp [RecipeStepInstance.make_code, hc]
      have hemit : emitted s = emit s._config [] {} := by simp [emitted, hmk]
      rw [hdesc] at hfn
      unfold create_code_func_header_step
      simp only [hi, hfn, hmk]
      have hcontains : state.func_names.contains (derived_name i s)
          = decide (derived_name i s ∈ state.func_names) := List.elem_eq_mem _ _
      rw [hcontains]
      by_cases hseen : derived_name i s ∈ state.func_names
      · simp [hseen]
      · simp only [hseen, decide_False, Bool.not_false, if_true, if_false]
        unfold function_text return_line
        simp only [hemit, hdesc]
        generalize emit s._config [] {} = produced
        obtain ⟨code, info⟩ := produced
        generalize describe {} = stepInfo
        congr 2
        cases stepInfo.returns_stop <;> cases stepInfo.stop_variable <;>
          simp only [NL, String.append_assoc, foldl_write, String.append_empty,
            Bool.false_eq_true, if_false, if_true]

theorem cpp_step_eq (i : Nat) (s : RecipeStepInstance) (cpp_stream : String)
    (hs : s.emittable) :
    create_code_func_cpp_step i s cpp_stream = .ok (cpp_stream ++ call_site (i, s)) := by
  have hfn := func_name_eq i s hs
  obtain ⟨hname, hinfo, hcode⟩ := hs
  cases hi : s._step._info with
  | none => simp [hi] at hinfo
  | some describe =>
    have hdesc : described s = describe {} := by simp [described, hi]
    rw [hdesc] at hfn
    unfold create_code_func_cpp_step call_site
    simp only [hi, hfn, hdesc]
    cases (describe {}).returns_stop <;>
      simp only [NL, String.append_assoc, Bool.false_eq_true, if_false, if_true]

theorem header_loop_eq (show_float : CFloat → String)
    (pairs : List (Nat × RecipeStepInstance)) (state : HeaderState)
    (hpairs : ∀ p ∈ pairs, p.2.emittable) :
    ∃ names, for_each_pair (create_code_func_header_step show_float) pairs state
      = .ok ⟨state.header_stream ++ String.join
          ((emitted_bodies pairs state.func_names).map (function_text show_float)), names⟩ := by
  induction pairs generalizing state with
  | nil => exact ⟨state.func_names, by simp [for_each_pair, emitted_bodies, join_nil]⟩
  | cons p rest ih =>
    have hrest : ∀ q ∈ rest, q.2.emittable := fun q hq => hpairs q (List.mem_cons_of_mem _ hq)
    have hp := hpairs p (List.mem_cons_self _ _)
    simp only [for_each_pair, header_step_eq show_float p.1 p.2 state hp, emitted_bodies]
    by_cases hseen : derived_name p.1 p.2 ∈ state.func_names
    · simp only [hseen, if_true]
      exact ih state hrest
    · simp only [hseen, if_false]
      obtain ⟨names, hnames⟩ := ih ⟨state.header_stream ++ function_text show_float (p.1, p.2),
        derived_name p.1 p.2 :: state.func_names⟩ hrest
      refine ⟨names, ?_⟩
      rw [hnames]
      simp only [List.map_cons, join_cons, String.append_assoc]

theorem cpp_loop_eq (pairs : List (Nat × RecipeStepInstance)) (cpp_stream : String)
    (hpairs : ∀ p ∈ pairs, p.2.emittable) :
    for_each_pair create_code_func_cpp_step pairs cpp_stream
      = .ok (cpp_stream ++ String.join (pairs.map call_site)) := by
  induction pairs generalizing cpp_stream with
  | nil => simp [for_each_pair, join_nil]
  | cons p rest ih =>
    have hrest : ∀ q ∈ rest, q.2.emittable := fun q hq => hpairs q (List.mem_cons_of_mem _ hq)
    have hp := hpairs p (List.mem_cons_self _ _)
    simp only [for_each_pair, cpp_step_eq p.1 p.2 cpp_stream hp, ih _ hrest, List.map_cons,
      join_cons, String.append_assoc]

theorem enum_emittable (steps : List RecipeStepInstance)
    (hsteps : ∀ s ∈ steps, s.emittable) : ∀ p ∈ steps.enum, p.2.emittable := by
  intro p hp
  exact hsteps p.2 (List.snd_mem_of_mem_enum hp)

/-- The library of a recipe of fewer than `2^32` instances that can all be
handed to the generator: head, the function definitions of the instances with
a new derived name, the cleanup function. -/
theorem create_code_func_header_eq (show_float : CFloat → String) (r : Recipe)
    (hsize : r._steps.length < 2 ^ 32) (hsteps : ∀ s ∈ r._steps, s.emittable) :
    create_code_func_header show_float r
      = .ok (library_head
          ++ String.join ((emitted_bodies r._steps.enum []).map (function_text show_float))
          ++ cleanup_function_text) := by
  have hcleanup : Model.cleanup_code [] = ["data.clear();", "data.shrink_to_fit();"] := rfl
  obtain ⟨names, hloop⟩ := header_loop_eq show_float r._steps.enum
    ⟨"" ++ "#pragma once" ++ NL ++ "#include<vector>" ++ NL ++ "#include<iostream>" ++ NL ++ NL,
      []⟩ (enum_emittable r._steps hsteps)
  unfold create_code_func_header
  simp only [for_each_step_count r _ hsize, hloop, hcleanup]
  simp only [library_head, cleanup_function_text, NL, String.append_assoc, foldl_write,
    String.empty_append]

/-- The driver of a recipe of fewer than `2^32` instances that can all be
handed to the generator: head, one call site per instance, tail. -/
theorem create_code_func_cpp_eq (r : Recipe) (header_file : String)
    (hsize : r._steps.length < 2 ^ 32) (hsteps : ∀ s ∈ r._steps, s.emittable) :
    create_code_func_cpp r header_file
      = .ok (driver_head header_file ++ String.join (r._steps.enum.map call_site)
          ++ driver_tail) := by
  have hsetup : Model.setup_code [] = setup_lines := rfl
  unfold create_code_func_cpp
  simp only [for_each_step_count r _ hsize, hsetup,
    cpp_loop_eq r._steps.enum _ (enum_emittable r._steps hsteps)]
  simp only [driver_head, driver_tail, NL, String.append_assoc, foldl_write,
    String.empty_append]

/-- Both artifacts of `create_code_func` for a recipe of fewer than `2^32`
instances that can all be handed to the generator. -/
theorem create_code_func_eq (show_float : CFloat → String) (r : Recipe) (header_file : String)
    (hsize : r._steps.length < 2 ^ 32) (hsteps : ∀ s ∈ r._steps, s.emittable) :
    create_code_func show_float r header_file
      = .ok ⟨library_head
            ++ String.join ((emitted_bodies r._steps.enum []).map (function_text show_float))
            ++ cleanup_function_text,
          driver_head header_file ++ String.join (r._steps.enum.map call_site)
            ++ driver_tail⟩ := by
  unfold create_code_func
  rw [create_code_func_header_eq show_float r hsize hsteps,
    create_code_func_cpp_eq r header_file hsize hsteps]

theorem emitted_bodies_sublist (pairs : List (Nat × RecipeStepInstance)) (seen : List String) :
    List.Sublist (emitted_bodies pairs seen) pairs := by
  induction pairs generalizing seen with
  | nil => exact List.Sublist.slnil
  | cons p rest ih =>
    unfold emitted_bodies
    by_cases hseen : derived_name p.1 p.2 ∈ seen
    · simp only [hseen, if_true]
      exact List.Sublist.cons p (ih seen)
    · simp only [hseen, if_false]
      exact List.Sublist.cons₂ p (ih _)

theorem emitted_bodies_not_seen (pairs : List (Nat × RecipeStepInstance)) (seen : List String)
    (p : Nat × RecipeStepInstance) (hp : p ∈ emitted_bodies pairs seen) :
    derived_name p.1 p.2 ∉ seen := by
  induction pairs generalizing seen with
  | nil => simp [emitted_bodies] at hp
  | cons q rest ih =>
    unfold emitted_bodies at hp
    by_cases hseen : derived_name q.1 q.2 ∈ seen
    · simp only [hseen, if_true] at hp
      exact ih seen hp
    · simp only [hseen, if_false, List.mem_cons] at hp
      rcases hp with h | h
      · rw [h]; exact hseen
      · intro hmem
        exact ih _ h (List.mem_cons_of_mem _ hmem)

theorem emitted_bodies_nodup (pairs : List (Nat × RecipeStepInstance)) (seen : List String) :
    ((emitted_bodies pairs seen).map (fun p => derived_name p.1 p.2)).Nodup := by
  induction pairs generalizing seen with
  | nil => simp [emitted_bodies]
  | cons q rest ih =>
    unfold emitted_bodies
    by_cases hseen : derived_name q.1 q.2 ∈ seen
    · simp only [hseen, if_true]
      exact ih seen
    · simp only [hseen, if_false, List.map_cons, List.nodup_cons]
      refine ⟨?_, ih _⟩
      intro hmem
      obtain ⟨p, hp, hname⟩ := List.mem_map.mp hmem
      have := emitted_bodies_not_seen rest _ p hp
      rw [hname] at this
      exact this (List.mem_cons_self _ _)

theorem emitted_bodies_covers (pairs : List (Nat × RecipeStepInstance)) (seen : List String)
    (p : Nat × RecipeStepInstance) (hp : p ∈ pairs) :
    derived_name p.1 p.2 ∈ seen ∨
      derived_name p.1 p.2 ∈ (emitted_bodies pairs seen).map (fun q => derived_name q.1 q.2) := by
  induction pairs generalizing seen with
  | nil => cases hp
  | cons q rest ih =>
    unfold emitted_bodies
    by_cases hseen : derived_name q.1 q.2 ∈ seen
    · simp only [hseen, if_true]
      rcases List.mem_cons.mp hp with h | h
      · left; rw [h]; exact hseen
      · exact ih seen h
    · simp only [hseen, if_false, List.map_cons, List.mem_cons]
      rcases List.mem_cons.mp hp with h | h
      · right; left; rw [h]
      · rcases ih (derived_name q.1 q.2 :: seen) h with h2 | h2
        · rcases List.mem_cons.mp h2 with h3 | h3
          · right; left; exact h3
          · left; exact h3
        · right; right; exact h2

theorem emitted_bodies_first (l : List RecipeStepInstance) (k : Nat) (seen : List String)
    (p q : Nat × RecipeStepInstance) (hp : p ∈ emitted_bodies (l.enumFrom k) seen)
    (hq : q ∈ l.enumFrom k) (hname : derived_name q.1 q.2 = derived_name p.1 p.2) :
    p.1 ≤ q.1 := by
  induction l generalizing k seen with
  | nil => simp [emitted_bodies] at hp
  | cons x rest ih =>
    simp only [List.enumFrom_cons] at hp hq
    unfold emitted_bodies at hp
    by_cases hseen : derived_name (k, x).1 (k, x).2 ∈ seen
    · simp only [hseen, if_true] at hp
      rcases List.mem_cons.mp hq with h | h
      · have := emitted_bodies_not_seen _ _ p hp
        rw [← hname, h] at this
        exact absurd hseen this
      · exact ih (k + 1) seen hp h
    · simp only [hseen, if_false, List.mem_cons] at hp
      rcases hp with h | h
      · rw [h]
        rcases List.mem_cons.mp hq with h2 | h2
        · rw [h2]
        · have := List.le_fst_of_mem_enumFrom h2
          show k ≤ q.1
          omega
      · rcases List.mem_cons.mp hq with h2 | h2
        · have := emitted_bodies_not_seen _ _ p h
          rw [← hname, h2] at this
          exact absurd (List.mem_cons_self _ _) this
        · exact ih (k + 1) _ h h2

theorem described_of_step_eq (s t : RecipeStepInstance) (h : s._step = t._step) :
    described s = described t := by
  unfold described
  rw [h]

theorem repeating_recipe_emittable : ∀ s ∈ repeating_recipe._steps, s.emittable := by
  intro s hs
  simp only [repeating_recipe, List.mem_cons, List.mem_singleton, List.not_mem_nil,
    or_false] at hs
  rcases hs with h | h | h | h | h | h <;> subst h <;> exact ⟨rfl, rfl, rfl⟩

/-- C12: the function name derived for the instance at position `i` is the
name of the step when the describer sets `always_same_code`, and otherwise
the name followed by `_` and the decimal rendering of `i`; and for a recipe of
`n < 2^32` instances that can all be handed to the generator, the driver of
`create_code_func` consists of its head, exactly `n` call sites in recipe
order, and its tail, where the `i`-th call site applies the name derived
for the instance at position `i` to `(data, res)`: as the condition of the guard
`if (!name(data, res)) { _cleanup(data, res); return 0; }` when the describer
sets `returns_stop`, as a bare statement otherwise, whether or not the
function body was written to the library. -/
theorem driver_call_sites (show_float : CFloat → String) (r : Recipe) (header_file : String)
    (hsize : r._steps.length < 2 ^ 32) (hsteps : ∀ s ∈ r._steps, s.emittable) :
    (∀ (i : Nat) (s : RecipeStepInstance), s ∈ r._steps →
      func_name s._step (described s) i
        = .ok (if (described s).always_same_code = true then s._step._name.getD ""
               else s._step._name.getD "" ++ "_" ++ toString i)) ∧
    ∃ (header : String) (sites : List String),
      create_code_func show_float r header_file
        = .ok ⟨header, driver_head header_file ++ String.join sites ++ driver_tail⟩ ∧
      sites.length = r._steps.length ∧
      ∀ (i : Nat) (s : RecipeStepInstance), r._steps[i]? = some s →
        sites[i]? = some
          (if (described s).returns_stop = true then
            "\n\tif (!" ++ (derived_name i s ++ "(data, res)") ++ ") \x7b" ++ "\n" ++
              ("\t\t_cleanup(data, res);" ++ "\n") ++ ("\t\treturn 0;" ++ "\n") ++
              ("\t\x7d" ++ "\n")
           else "\n" ++ ("\t" ++ (derived_name i s ++ "(data, res)") ++ ";" ++ "\n")) := by
  constructor
  · intro i s hs
    exact func_name_eq i s (hsteps s hs)
  · refine ⟨_, r._steps.enum.map call_site,
      create_code_func_eq show_float r header_file hsize hsteps, by simp, ?_⟩
    intro i s hi
    rw [List.getElem?_map, List.getElem?_enum, hi]
    rfl

set_option maxRecDepth 100000 in
/-- Witness for C12: the call sites of the second `hello_world` and the second
`check_data` of a recipe in which both occur twice, and of `check` at
position 4. -/
theorem driver_call_sites_witness :
    repeating_recipe._steps.length < 2 ^ 32 ∧
    (∀ s ∈ repeating_recipe._steps, s.emittable) ∧
    ∃ (header : String) (sites : List String),
      create_code_func show_bits repeating_recipe "my_header.h"
        = .ok ⟨header, driver_head "my_header.h" ++ String.join sites ++ driver_tail⟩ ∧
      sites.length = 6 ∧
      sites[3]? = some "\n\thello_world(data, res);\n" ∧
      sites[4]? = some
        "\n\tif (!check_4(data, res)) \x7b\n\t\t_cleanup(data, res);\n\t\treturn 0;\n\t\x7d\n" ∧
      sites[5]? = some
        "\n\tif (!check_data(data, res)) \x7b\n\t\t_cleanup(data, res);\n\t\treturn 0;\n\t\x7d\n" :=
  ⟨by decide, repeating_recipe_emittable,
   match (driver_call_sites show_bits repeating_recipe "my_header.h" (by decide)
      repeating_recipe_emittable).2 with
   | ⟨header, sites, h1, h2, h3⟩ =>
     ⟨header, sites, h1, h2,
      (h3 3 ⟨hello_world_step, []⟩ rfl).trans (congrArg some (by decide)),
      (h3 4 (configured (check_step (fun a b => decide (a = b)) show_bits) [("ref", ⟨45⟩)])
        rfl).trans (congrArg some (by decide)),
      (h3 5 ⟨check_data_step, []⟩ rfl).trans (congrArg some (by decide))⟩⟩

set_option maxRecDepth 100000 in
/-- C14, where the claim fails: for a step whose describer sets `returns_stop`
without naming a stop variable, the function is declared `auto` and its body
ends with the code line of the emitter: no return line is added. -/
theorem abort_capable_body_without_return :
    (described ⟨unnamed_stop_step, []⟩).returns_stop = true ∧
    (create_code_func show_bits { _steps := [⟨unnamed_stop_step, []⟩] } "h").toOption.map
        FuncArtifacts.header
      = some ("#pragma once\n#include<vector>\n#include<iostream>\n\n"
          ++ "inline auto stop_0(std::vector<float>&data, float&res)\n\x7b\n"
          ++ "\tconst auto populated = !data.empty();\n\x7d\n\n"
          ++ "inline void _cleanup(std::vector<float>&data, float&res)\n\x7b\n"
          ++ "\tdata.clear();\n\tdata.shrink_to_fit();\n\x7d\n\n") := by
  decide

/-- C14 as amended: for a recipe of fewer than `2^32` instances that can all
be handed to the generator, every function definition in the library is the
declaration line, `{`, the `Conf` comments, the code lines of the emitter, the
added return line if any, and `}`. When the describer sets `returns_stop` the
function is declared `auto`, and the added last line is
`return <stop_variable>;` if the describer names a stop variable and absent if
it names none; when the describer does not set `returns_stop` the function is
declared `void` and no return line is added. -/
theorem function_return_line (show_float : CFloat → String) (r : Recipe)
    (header_file : String)
    (hsize : r._steps.length < 2 ^ 32) (hsteps : ∀ s ∈ r._steps, s.emittable) :
    ∃ (bodies : List (Nat × RecipeStepInstance)) (driver : String),
      create_code_func show_float r header_file
        = .ok ⟨library_head ++ String.join (bodies.map (function_text show_float))
                ++ cleanup_function_text, driver⟩ ∧
      List.Sublist bodies r._steps.enum ∧
      ∀ p ∈ bodies, ∃ declared added : String,
        function_text show_float p
          = ("inline " ++ declared ++ " " ++ derived_name p.1 p.2
              ++ "(std::vector<float>&data, float&res)" ++ "\n") ++
            ("\x7b" ++ "\n") ++
            String.join (p.2._config.map (fun kv =>
              "\t// " ++ kv.1 ++ " : " ++ show_float kv.2 ++ "\n")) ++
            String.join ((emitted p.2).1.map (fun line => "\t" ++ line ++ "\n")) ++
            added ++
            ("\x7d" ++ "\n" ++ "\n") ∧
        ((described p.2).returns_stop = true →
          declared = "auto" ∧
          (∀ stop_variable, (described p.2).stop_variable = some stop_variable →
            added = "\treturn " ++ stop_variable ++ ";" ++ "\n") ∧
          ((described p.2).stop_variable = none → added = "")) ∧
        ((described p.2).returns_stop = false → declared = "void" ∧ added = "") := by
  refine ⟨emitted_bodies r._steps.enum [], _,
    create_code_func_eq show_float r header_file hsize hsteps,
    emitted_bodies_sublist _ _, ?_⟩
  intro p _
  refine ⟨if (described p.2).returns_stop then "auto" else "void",
    return_line (described p.2), rfl, ?_, ?_⟩
  · intro hret
    refine ⟨by simp [hret], ?_, ?_⟩
    · intro stop_variable hvar
      simp [return_line, hret, hvar]
    · intro hvar
      simp [return_line, hret, hvar]
  · intro hret
    refine ⟨by simp [hret], ?_⟩
    cases hvar : (described p.2).stop_variable <;> simp [return_line, hret, hvar]

set_option maxRecDepth 100000 in
/-- Witness for C14: the library of a recipe with functions of both kinds. -/
theorem function_return_line_witness :
    repeating_recipe._steps.length < 2 ^ 32 ∧
    (∀ s ∈ repeating_recipe._steps, s.emittable) ∧
    (∃ (bodies : List (Nat × RecipeStepInstance)) (driver : String),
      create_code_func show_bits repeating_recipe "my_header.h"
        = .ok ⟨library_head ++ String.join (bodies.map (function_text show_bits))
                ++ cleanup_function_text, driver⟩ ∧
      List.Sublist bodies repeating_recipe._steps.enum) ∧
    function_text show_bits (2, ⟨check_data_step, []⟩)
      = "inline auto check_data(std::vector<float>&data, float&res)\n\x7b\n"
        ++ "\tconst auto populated = !data.empty();\n\treturn populated;\n\x7d\n\n" ∧
    function_text show_bits (0, ⟨hello_world_step, []⟩)
      = "inline void hello_world(std::vector<float>&data, float&res)\n\x7b\n"
        ++ "\tstd::cout << \"Hello World !\\n\";\n\x7d\n\n" :=
  ⟨by decide, repeating_recipe_emittable,
   match function_return_line show_bits repeating_recipe "my_header.h" (by decide)
      repeating_recipe_emittable with
   | ⟨bodies, driver, h1, h2, _⟩ => ⟨bodies, driver, h1, h2⟩,
   by decide, by decide⟩

theorem cleanup_function_text_eq :
    cleanup_function_text
      = "inline void _cleanup(std::vector<float>&data, float&res)\n\x7b\n"
        ++ "\tdata.clear();\n\tdata.shrink_to_fit();\n\x7d\n\n" := by
  decide

theorem driver_tail_eq :
    driver_tail = "\n\t_cleanup(data, res);\n\n\treturn 0;\n\x7d\n" := by
  decide

set_option maxRecDepth 100000 in
/-- C15, where the claim fails: for the recipe of one step registered under
the name `_cleanup` (flagged `always_same_code`) the library holds two
definitions of `_cleanup`, the function of the step and then the cleanup
function, and the driver calls `_cleanup` twice. -/
theorem cleanup_function_defined_twice :
    (create_code_func show_bits { _steps := [⟨cleanup_named_step, []⟩] } "h").toOption
      = some ⟨"#pragma once\n#include<vector>\n#include<iostream>\n\n"
                ++ "inline void _cleanup(std::vector<float>&data, float&res)\n\x7b\n"
                ++ "\tstd::cout << \"Hello World !\\n\";\n\x7d\n\n"
                ++ "inline void _cleanup(std::vector<float>&data, float&res)\n\x7b\n"
                ++ "\tdata.clear();\n\tdata.shrink_to_fit();\n\x7d\n\n",
              "#include \"h\"\n\nint main() \x7b\n\n\tstd::vector<float> data;\n"
                ++ "\tauto res = .0f;\n\n\t_cleanup(data, res);\n\n"
                ++ "\t_cleanup(data, res);\n\n\treturn 0;\n\x7d\n"⟩ ∧
    ((emitted_bodies [(0, (⟨cleanup_named_step, []⟩ : RecipeStepInstance))] []).map
        (fun p => derived_name p.1 p.2) ++ ["_cleanup"]).count "_cleanup" = 2 := by
  decide

/-- C15 as amended: for a recipe of fewer than `2^32` instances that can all
be handed to the generator, the library of `create_code_func` is its head, the
function definitions of a list `bodies` of instances (each named by the
derived name of its instance, no name twice), and then the definition of
`_cleanup` whose body is the cleanup sequence `data.clear();`,
`data.shrink_to_fit();`; the driver ends, after its call sites, with the call
`_cleanup(data, res);` outside any guard, followed by `return 0;` and the
closing brace of `main`. Among the names of the functions defined in the
library, `_cleanup` occurs exactly once when no instance derives the name
`_cleanup`, and exactly twice when an instance does. -/
theorem cleanup_function_once (show_float : CFloat → String) (r : Recipe)
    (header_file : String)
    (hsize : r._steps.length < 2 ^ 32) (hsteps : ∀ s ∈ r._steps, s.emittable) :
    ∃ (bodies : List (Nat × RecipeStepInstance)) (sites : List String),
      create_code_func show_float r header_file
        = .ok ⟨library_head ++ String.join (bodies.map (function_text show_float))
                ++ ("inline void _cleanup(std::vector<float>&data, float&res)\n\x7b\n"
                    ++ "\tdata.clear();\n\tdata.shrink_to_fit();\n\x7d\n\n"),
              driver_head header_file ++ String.join sites
                ++ "\n\t_cleanup(data, res);\n\n\treturn 0;\n\x7d\n"⟩ ∧
      sites = r._steps.enum.map call_site ∧
      List.Sublist bodies r._steps.enum ∧
      (bodies.map (fun p => derived_name p.1 p.2)).Nodup ∧
      ((∀ p ∈ r._steps.enum, derived_name p.1 p.2 ≠ "_cleanup") →
        ∀ p ∈ bodies, derived_name p.1 p.2 ≠ "_cleanup") ∧
      ((∀ p ∈ r._steps.enum, derived_name p.1 p.2 ≠ "_cleanup") →
        (bodies.map (fun p => derived_name p.1 p.2) ++ ["_cleanup"]).count "_cleanup" = 1) ∧
      ((∃ p ∈ r._steps.enum, derived_name p.1 p.2 = "_cleanup") →
        (bodies.map (fun p => derived_name p.1 p.2) ++ ["_cleanup"]).count "_cleanup"
          = 2) := by
  refine ⟨emitted_bodies r._steps.enum [], r._steps.enum.map call_site, ?_, rfl,
    emitted_bodies_sublist _ _, emitted_bodies_nodup _ _, ?_, ?_, ?_⟩
  · rw [create_code_func_eq show_float r header_file hsize hsteps, cleanup_function_text_eq,
      driver_tail_eq]
  · intro hnames p hp
    exact hnames p ((emitted_bodies_sublist _ _).subset hp)
  · intro hnames
    have hnot : "_cleanup"
        ∉ (emitted_bodies r._steps.enum []).map (fun p => derived_name p.1 p.2) := by
      intro hmem
      obtain ⟨p, hp, hname⟩ := List.mem_map.mp hmem
      exact hnames p ((emitted_bodies_sublist _ _).subset hp) hname
    rw [List.count_append, List.count_eq_zero_of_not_mem hnot]
    rfl
  · rintro ⟨p, hp, hname⟩
    have hmem : "_cleanup"
        ∈ (emitted_bodies r._steps.enum []).map (fun p => derived_name p.1 p.2) := by
      rcases emitted_bodies_covers r._steps.enum [] p hp with h | h
      · cases h
      · rw [← hname]
        exact h
    rw [List.count_append, List.count_eq_one_of_mem (emitted_bodies_nodup _ _) hmem]
    rfl

set_option maxRecDepth 100000 in
/-- Witness for C15: the library and the driver of a recipe of six instances,
none of which derives the name `_cleanup`. -/
theorem cleanup_function_once_witness :
    repeating_recipe._steps.length < 2 ^ 32 ∧
    (∀ s ∈ repeating_recipe._steps, s.emittable) ∧
    (∀ p ∈ repeating_recipe._steps.enum, derived_name p.1 p.2 ≠ "_cleanup") ∧
    ∃ (bodies : List (Nat × RecipeStepInstance)) (sites : List String),
      create_code_func show_bits repeating_recipe "my_header.h"
        = .ok ⟨library_head ++ String.join (bodies.map (function_text show_bits))
                ++ ("inline void _cleanup(std::vector<float>&data, float&res)\n\x7b\n"
                    ++ "\tdata.clear();\n\tdata.shrink_to_fit();\n\x7d\n\n"),
              driver_head "my_header.h" ++ String.join sites
                ++ "\n\t_cleanup(data, res);\n\n\treturn 0;\n\x7d\n"⟩ ∧
      sites.length = 6 ∧
      (bodies.map (fun p => derived_name p.1 p.2) ++ ["_cleanup"]).count "_cleanup" = 1 :=
  have hnames : ∀ p ∈ repeating_recipe._steps.enum, derived_name p.1 p.2 ≠ "_cleanup" := by
    decide
  ⟨by decide, repeating_recipe_emittable, hnames,
   match cleanup_function_once show_bits repeating_recipe "my_header.h" (by decide)
      repeating_recipe_emittable with
   | ⟨bodies, sites, h1, h2, _, _, _, h6, _⟩ =>
     ⟨bodies, sites, h1, by rw [h2]; rfl, h6 hnames⟩⟩

theorem lookup_of_mem_keys {β : Type} (l : List (String × β)) (k : String)
    (hk : k ∈ l.map Prod.fst) : ∃ v, l.lookup k = some v ∧ (k, v) ∈ l := by
  induction l with
  | nil => cases hk
  | cons e rest ih =>
    obtain ⟨a, b⟩ := e
    by_cases hka : k = a
    · subst hka
      exact ⟨b, by simp, List.mem_cons_self _ _⟩
    · have hrest : k ∈ rest.map Prod.fst := by
        simp only [List.map_cons, List.mem_cons] at hk
        rcases hk with h | h
        · exact absurd h hka
        · exact h
      obtain ⟨v, hv1, hv2⟩ := ih hrest
      refine ⟨v, ?_, List.mem_cons_of_mem _ hv2⟩
      rw [List.lookup_cons]
      have hbeq : (k == a) = false := by simpa using hka
      rw [hbeq]
      exact hv1

theorem driver_code_lines_eq (r : Recipe)
    (hsame : ∀ p ∈ r._steps.enum, ∀ q ∈ r._steps.enum,
      derived_name p.1 p.2 = derived_name q.1 q.2 → (emitted p.2).1 = (emitted q.2).1) :
    driver_code_lines r = r._steps.map (fun s => (emitted s).1) := by
  unfold driver_code_lines
  have hpoint : ∀ p ∈ r._steps.enum,
      ((library_functions r).lookup (derived_name p.1 p.2)).getD [] = (emitted p.2).1 := by
    intro p hp
    have hkey : derived_name p.1 p.2 ∈ (library_functions r).map Prod.fst := by
      unfold library_functions
      rw [List.map_map]
      rcases emitted_bodies_covers r._steps.enum [] p hp with h | h
      · cases h
      · exact h
    obtain ⟨v, hv1, hv2⟩ := lookup_of_mem_keys _ _ hkey
    rw [hv1, Option.getD_some]
    unfold library_functions at hv2
    obtain ⟨q, hq, hqe⟩ := List.mem_map.mp hv2
    injection hqe with hname hcode
    rw [← hcode]
    exact hsame q ((emitted_bodies_sublist _ _).subset hq) p hp hname
  rw [List.map_congr_left hpoint]
  conv_rhs => rw [← List.enum_map_snd r._steps]
  rw [List.map_map]
  rfl

theorem generable_emittable (s : RecipeStepInstance) (h : s.generable) : s.emittable :=
  ⟨h.1, h.2.1, h.2.2.1⟩

theorem repeating_recipe_generable : ∀ s ∈ repeating_recipe._steps, s.generable := by
  intro s hs
  simp only [repeating_recipe, List.mem_cons, List.mem_singleton, List.not_mem_nil,
    or_false] at hs
  rcases hs with h | h | h | h | h | h <;> subst h <;> exact ⟨rfl, rfl, rfl, by decide⟩

set_option maxRecDepth 100000 in
/-- C17, where the claim fails: in the recipe of `hello_world` followed by a
different step of the same name, the driver calls the function `hello_world`
twice, whose one body in the library is the code line of the first instance,
while the second block of the inline artifact that `create_code` writes holds
the two code lines of the second instance: the inline artifact is not the
text whose blocks hold the code lines behind the call sites of the driver. -/
theorem driver_and_inline_lines_differ :
    (create_code_func show_bits same_name_recipe "h").toOption
      = some ⟨"#pragma once\n#include<vector>\n#include<iostream>\n\n"
                ++ "inline void hello_world(std::vector<float>&data, float&res)\n\x7b\n"
                ++ "\tstd::cout << \"Hello World !\\n\";\n\x7d\n\n"
                ++ "inline void _cleanup(std::vector<float>&data, float&res)\n\x7b\n"
                ++ "\tdata.clear();\n\tdata.shrink_to_fit();\n\x7d\n\n",
              "#include \"h\"\n\nint main() \x7b\n\n\tstd::vector<float> data;\n"
                ++ "\tauto res = .0f;\n\n\thello_world(data, res);\n\n"
                ++ "\thello_world(data, res);\n\n\t_cleanup(data, res);\n\n"
                ++ "\treturn 0;\n\x7d\n"⟩ ∧
    (create_code "T" show_bits same_name_recipe).toOption
      = some ("// T\n#include<vector>\n#include<iostream>\n\nint main() \x7b\n\n"
          ++ "\tstd::vector<float> data;\n\tauto res = .0f;\n\n\t// hello_world\n"
          ++ "\tstd::cout << \"Hello World !\\n\";\n\n\t// hello_world\n\tdata.clear();\n"
          ++ "\tres = 0.0f;\n\n\t// cleanup\n\tdata.clear();\n\tdata.shrink_to_fit();\n\n"
          ++ "\treturn 0;\n\x7d\n") ∧
    driver_code_lines same_name_recipe
      = [["std::cout << \"Hello World !\\n\";"], ["std::cout << \"Hello World !\\n\";"]] ∧
    (create_code "T" show_bits same_name_recipe).toOption
      = some (inline_head "T"
          ++ inline_block_with show_bits ⟨hello_world_step, []⟩
              ["std::cout << \"Hello World !\\n\";"]
          ++ inline_block_with show_bits ⟨renamed_reset_step, []⟩
              ["data.clear();", "res = 0.0f;"]
          ++ inline_tail) ∧
    (create_code "T" show_bits same_name_recipe).toOption
      ≠ some (inline_head "T"
          ++ String.join ((same_name_recipe._steps.zip (driver_code_lines same_name_recipe)).map
              (fun sc => inline_block_with show_bits sc.1 sc.2))
          ++ inline_tail) := by
  decide

/-- C17 as amended: for a recipe of fewer than `2^32` instances that can all
be handed to both generators, and in which instances with the same derived
function name have the same emitter code lines, `create_code_func` writes the
library of the functions `library_functions` and a driver with one call site
per instance, `create_code` writes the inline artifact of head, blocks (one
per instance) and tail, and for every position `i` the code lines that the
block at position `i` of the inline artifact holds are the step code lines
behind the call site at position `i` of the driver: the code lines in the
library of the function that carries the name which the call site applies. -/
theorem driver_runs_inline_lines (timestamp : String) (show_float : CFloat → String)
    (r : Recipe) (header_file : String)
    (hsize : r._steps.length < 2 ^ 32) (hsteps : ∀ s ∈ r._steps, s.generable)
    (hsame : ∀ p ∈ r._steps.enum, ∀ q ∈ r._steps.enum,
      derived_name p.1 p.2 = derived_name q.1 q.2 → (emitted p.2).1 = (emitted q.2).1) :
    ∃ (bodies : List (Nat × RecipeStepInstance)) (blocks : List String),
      create_code_func show_float r header_file
        = .ok ⟨library_head ++ String.join (bodies.map (function_text show_float))
                ++ cleanup_function_text,
              driver_head header_file ++ String.join (r._steps.enum.map call_site)
                ++ driver_tail⟩ ∧
      library_functions r = bodies.map (fun p => (derived_name p.1 p.2, (emitted p.2).1)) ∧
      create_code timestamp show_float r
        = .ok (inline_head timestamp ++ String.join blocks ++ inline_tail) ∧
      blocks.length = r._steps.length ∧
      (driver_code_lines r).length = r._steps.length ∧
      ∀ (i : Nat) (s : RecipeStepInstance), r._steps[i]? = some s →
        ∃ code : CodeLines,
          (driver_code_lines r)[i]? = some code ∧
          (∃ p ∈ bodies, derived_name p.1 p.2 = derived_name i s ∧ (emitted p.2).1 = code) ∧
          blocks[i]? = some (inline_block_with show_float s code) := by
  have hlines := driver_code_lines_eq r hsame
  refine ⟨emitted_bodies r._steps.enum [], r._steps.map (inline_block show_float),
    create_code_func_eq show_float r header_file hsize
      (fun s hs => generable_emittable s (hsteps s hs)),
    rfl, create_code_eq timestamp show_float r hsteps, by simp, by rw [hlines]; simp, ?_⟩
  intro i s hi
  refine ⟨(emitted s).1, ?_, ?_, ?_⟩
  · rw [hlines, List.getElem?_map, hi]
    rfl
  · have hmem : (i, s) ∈ r._steps.enum := List.mem_enum_iff_getElem?.mpr hi
    rcases emitted_bodies_covers r._steps.enum [] (i, s) hmem with h | h
    · cases h
    · obtain ⟨p, hp, hname⟩ := List.mem_map.mp h
      exact ⟨p, hp, hname,
        hsame p ((emitted_bodies_sublist _ _).subset hp) (i, s) hmem hname⟩
  · rw [List.getElem?_map, hi]
    rfl

set_option maxRecDepth 100000 in
/-- Witness for C17: in a recipe with two instances of `hello_world` and two of
`check_data`, instances with the same derived name have the same code lines;
the block of the second `check_data` in the inline artifact holds the code
line behind the sixth call site of the driver, the one body of the function
`check_data`. -/
theorem driver_runs_inline_lines_witness :
    repeating_recipe._steps.length < 2 ^ 32 ∧
    (∀ s ∈ repeating_recipe._steps, s.generable) ∧
    (∀ p ∈ repeating_recipe._steps.enum, ∀ q ∈ repeating_recipe._steps.enum,
      derived_name p.1 p.2 = derived_name q.1 q.2 → (emitted p.2).1 = (emitted q.2).1) ∧
    (∃ blocks : List String,
      create_code "T" show_bits repeating_recipe
        = .ok (inline_head "T" ++ String.join blocks ++ inline_tail) ∧
      blocks.length = 6 ∧
      blocks[5]? = some ("\n\t\x7b\n\t\t// check_data\n"
        ++ "\t\tconst auto populated = !data.empty();\n"
        ++ "\t\tif (!populated) \x7b\n\t\t\t// cleanup\n\t\t\tdata.clear();\n"
        ++ "\t\t\tdata.shrink_to_fit();\n\t\t\treturn 0;\n\t\t\x7d\n\t\x7d\n")) ∧
    driver_code_lines repeating_recipe
      = [["std::cout << \"Hello World !\\n\";"], ["std::cout<<\"Number: \"<<42<<\"\\n\";"],
         ["const auto populated = !data.empty();"], ["std::cout << \"Hello World !\\n\";"],
         ["const auto expected_value = 45f;", "const auto res_ok = expected_value == res;"],
         ["const auto populated = !data.empty();"]] :=
  ⟨by decide, repeating_recipe_generable, by decide,
   match driver_runs_inline_lines "T" show_bits repeating_recipe "my_header.h" (by decide)
      repeating_recipe_generable (by decide) with
   | ⟨_, blocks, _, _, h3, h4, _, h6⟩ =>
     match h6 5 ⟨check_data_step, []⟩ rfl with
     | ⟨code, hcode, _, hblock⟩ =>
       have hc : code = ["const auto populated = !data.empty();"] :=
         Option.some.inj (hcode.symm.trans (by decide))
       ⟨blocks, h3, h4, hblock.trans (congrArg some (by rw [hc]; decide))⟩,
   by decide⟩

/-! ## The decimal rendering of positions -/

theorem read_decimal_cons (acc : Nat) (c : Char) (rest : List Char) :
    read_decimal acc (c :: rest) = read_decimal (acc * 10 + (c.toNat - 48)) rest := rfl

theorem read_decimal_acc (acc : Nat) (cs : List Char) :
    read_decimal acc cs = acc * 10 ^ cs.length + read_decimal 0 cs := by
  induction cs generalizing acc with
  | nil =>
    show acc = acc * 10 ^ 0 + 0
    omega
  | cons c rest ih =>
    rw [read_decimal_cons, read_decimal_cons, List.length_cons]
    generalize c.toNat - 48 = d
    rw [ih (acc * 10 + d), ih (0 * 10 + d), pow_succ]
    ring

theorem digitChar_value (k : Nat) (hk : k < 10) : (Nat.digitChar k).toNat - 48 = k := by
  interval_cases k <;> rfl

theorem read_toDigitsCore (fuel n : Nat) (ds : List Char) (hfuel : n < fuel) :
    read_decimal 0 (Nat.toDigitsCore 10 fuel n ds)
      = n * 10 ^ ds.length + read_decimal 0 ds := by
  induction fuel generalizing n ds with
  | zero => omega
  | succ fuel ih =>
    unfold Nat.toDigitsCore
    have hdigit := digitChar_value (n % 10) (Nat.mod_lt n (by omega))
    by_cases hzero : n / 10 = 0
    · simp only [hzero, if_true]
      have hn : n % 10 = n := Nat.mod_eq_of_lt (by omega)
      rw [hn] at hdigit
      rw [read_decimal_cons, hn, hdigit, read_decimal_acc, Nat.zero_mul, Nat.zero_add]
    · simp only [hzero, if_false]
      have hlt : n / 10 < fuel := by omega
      rw [ih (n / 10) _ hlt]
      rw [read_decimal_cons, List.length_cons, hdigit, read_decimal_acc]
      have hsplit : n = 10 * (n / 10) + n % 10 := (Nat.div_add_mod n 10).symm
      generalize n / 10 = a at hsplit ⊢
      generalize n % 10 = b at hsplit ⊢
      rw [hsplit, pow_succ]
      ring

theorem read_toDigits (n : Nat) : read_decimal 0 (Nat.toDigits 10 n) = n := by
  have h := read_toDigitsCore (n + 1) n [] (by omega)
  have e : Nat.toDigits 10 n = Nat.toDigitsCore 10 (n + 1) n [] := rfl
  rw [e, h]
  show n * 10 ^ 0 + 0 = n
  omega

theorem toString_nat_data (n : Nat) : (toString n).data = Nat.toDigits 10 n := rfl

theorem toString_nat_inj (i j : Nat) (h : toString i = toString j) : i = j := by
  have hdata : Nat.toDigits 10 i = Nat.toDigits 10 j := by
    rw [← toString_nat_data, ← toString_nat_data, h]
  rw [← read_toDigits i, ← read_toDigits j, hdata]

theorem append_left_cancel (a b c : String) (h : a ++ b = a ++ c) : b = c := by
  apply String.ext
  have := congrArg String.data h
  simp only [String.data_append] at this
  exact List.append_cancel_left this

theorem enum_index_unique {α : Type} (l : List α) (p q : Nat × α)
    (hp : p ∈ l.enum) (hq : q ∈ l.enum) (h : p.1 = q.1) : p = q := by
  have h1 := List.mem_enum_iff_getElem?.mp hp
  have h2 := List.mem_enum_iff_getElem?.mp hq
  rw [h, h2] at h1
  injection h1 with h1
  exact Prod.ext h h1.symm

theorem same_step_same_name_flag (p q : Nat × RecipeStepInstance) (hlt : p.1 < q.1)
    (hstep : p.2._step = q.2._step)
    (hname : derived_name p.1 p.2 = derived_name q.1 q.2) :
    (described q.2).always_same_code = true := by
  have hdesc := described_of_step_eq p.2 q.2 hstep
  cases hflag : (described q.2).always_same_code with
  | true => rfl
  | false =>
    have hflagp : (described p.2).always_same_code = false := by rw [hdesc]; exact hflag
    simp only [derived_name, hflag, hflagp, Bool.false_eq_true, if_false, hstep,
      String.append_assoc] at hname
    have h1 := append_left_cancel _ _ _ hname
    have h2 := append_left_cancel _ _ _ h1
    have h3 := toString_nat_inj _ _ h2
    omega

set_option maxRecDepth 100000 in
/-- C19, where the claim fails: in the recipe of a step named `print_number_1`
(describer `always_same_code`, code of `hello_world`) at position 0 and the
step `print_number` at position 1, both instances derive the function name
`print_number_1`; the body of instance 1 is skipped although the two
instances reference different steps and the step of instance 1 is not flagged
`always_same_code`, and the shared body is not the code of instance 1. -/
theorem body_skipped_for_other_step :
    (emitted_bodies colliding_recipe._steps.enum []).map
        (fun p => (p.1, derived_name p.1 p.2)) = [(0, "print_number_1")] ∧
    derived_name 1 (configured (print_number_step show_bits show_bits) [("num", ⟨42⟩)])
      = "print_number_1" ∧
    (described (configured (print_number_step show_bits show_bits)
      [("num", ⟨42⟩)])).always_same_code = false ∧
    colliding_step ≠ print_number_step show_bits show_bits ∧
    (emitted ⟨colliding_step, []⟩).1
      ≠ (emitted (configured (print_number_step show_bits show_bits) [("num", ⟨42⟩)])).1 ∧
    (create_code_func show_bits colliding_recipe "h").toOption
      = some ⟨"#pragma once\n#include<vector>\n#include<iostream>\n\n"
                ++ "inline void print_number_1(std::vector<float>&data, float&res)\n\x7b\n"
                ++ "\tstd::cout << \"Hello World !\\n\";\n\x7d\n\n"
                ++ "inline void _cleanup(std::vector<float>&data, float&res)\n\x7b\n"
                ++ "\tdata.clear();\n\tdata.shrink_to_fit();\n\x7d\n\n",
              "#include \"h\"\n\nint main() \x7b\n\n\tstd::vector<float> data;\n"
                ++ "\tauto res = .0f;\n\n\tprint_number_1(data, res);\n\n"
                ++ "\tprint_number_1(data, res);\n\n\t_cleanup(data, res);\n\n"
                ++ "\treturn 0;\n\x7d\n"⟩ := by
  refine ⟨by decide, by decide, by decide, ?_, by decide, by decide⟩
  intro h
  have hname := congrArg RecipeStep._name h
  revert hname
  decide

/-- C19 as amended: for a recipe of fewer than `2^32` instances that can all
be handed to the generator, the function body of an instance is skipped
exactly when an earlier instance has the same derived function name; the
generator compares names only. Whenever the body of instance `j` is skipped,
the body of an earlier instance `i` with the same derived name was written, and
it is the body that the call site of `j` names; when `i` and `j` reference the
same step, that step is flagged `always_same_code`. -/
theorem body_skipped_iff_name_seen (show_float : CFloat → String) (r : Recipe)
    (header_file : String)
    (hsize : r._steps.length < 2 ^ 32) (hsteps : ∀ s ∈ r._steps, s.emittable) :
    ∃ (bodies : List (Nat × RecipeStepInstance)) (driver : String),
      create_code_func show_float r header_file
        = .ok ⟨library_head ++ String.join (bodies.map (function_text show_float))
                ++ cleanup_function_text, driver⟩ ∧
      List.Sublist bodies r._steps.enum ∧
      (∀ q ∈ r._steps.enum,
        q ∉ bodies ↔
          ∃ p ∈ r._steps.enum, p.1 < q.1 ∧ derived_name p.1 p.2 = derived_name q.1 q.2) ∧
      (∀ q ∈ r._steps.enum, q ∉ bodies →
        ∃ p ∈ bodies, p.1 < q.1 ∧ derived_name p.1 p.2 = derived_name q.1 q.2 ∧
          (p.2._step = q.2._step → (described q.2).always_same_code = true)) := by
  have hskipped : ∀ q ∈ r._steps.enum, q ∉ emitted_bodies r._steps.enum [] →
      ∃ p ∈ emitted_bodies r._steps.enum [], p.1 < q.1 ∧
        derived_name p.1 p.2 = derived_name q.1 q.2 := by
    intro q hq hnot
    have hcover : derived_name q.1 q.2
        ∈ (emitted_bodies r._steps.enum []).map (fun b => derived_name b.1 b.2) := by
      rcases emitted_bodies_covers r._steps.enum [] q hq with h | h
      · cases h
      · exact h
    obtain ⟨p, hp, hname⟩ := List.mem_map.mp hcover
    have hle := emitted_bodies_first r._steps 0 [] p q hp hq hname.symm
    have hpe := (emitted_bodies_sublist _ _).subset hp
    have hne : p.1 ≠ q.1 := by
      intro heq
      have := enum_index_unique r._steps p q hpe hq heq
      rw [this] at hp
      exact hnot hp
    exact ⟨p, hp, by omega, hname⟩
  refine ⟨emitted_bodies r._steps.enum [], _,
    create_code_func_eq show_float r header_file hsize hsteps,
    emitted_bodies_sublist _ _, ?_, ?_⟩
  · intro q hq
    constructor
    · intro hnot
      obtain ⟨p, hp, hlt, hname⟩ := hskipped q hq hnot
      exact ⟨p, (emitted_bodies_sublist _ _).subset hp, hlt, hname⟩
    · rintro ⟨p, hp, hlt, hname⟩ hmem
      have := emitted_bodies_first r._steps 0 [] q p hmem hp hname
      omega
  · intro q hq hnot
    obtain ⟨p, hp, hlt, hname⟩ := hskipped q hq hnot
    exact ⟨p, hp, hlt, hname, fun hstep => same_step_same_name_flag p q hlt hstep hname⟩

set_option maxRecDepth 100000 in
/-- Witness for C19: in a recipe with two instances of `hello_world` and two of
`check_data` the bodies of the second instances are skipped. -/
theorem body_skipped_iff_name_seen_witness :
    repeating_recipe._steps.length < 2 ^ 32 ∧
    (∀ s ∈ repeating_recipe._steps, s.emittable) ∧
    (∃ (bodies : List (Nat × RecipeStepInstance)) (driver : String),
      create_code_func show_bits repeating_recipe "my_header.h"
        = .ok ⟨library_head ++ String.join (bodies.map (function_text show_bits))
                ++ cleanup_function_text, driver⟩ ∧
      List.Sublist bodies repeating_recipe._steps.enum) ∧
    (emitted_bodies repeating_recipe._steps.enum []).map Prod.fst = [0, 1, 2, 4] :=
  ⟨by decide, repeating_recipe_emittable,
   match body_skipped_iff_name_seen show_bits repeating_recipe "my_header.h" (by decide)
      repeating_recipe_emittable with
   | ⟨bodies, driver, h1, h2, _, _⟩ => ⟨bodies, driver, h1, h2⟩,
   by decide⟩

/-! ## Executors and emitters of the printing steps -/

/-- C21, evaluated on the code: for every `Conf` and `Model`, `hello_world`
writes `Hello World!` while its emitted line writes `Hello World !`;
`print_number` writes the value between double quotes after the label
`Number: ` while its emitted line writes the label and the value without
quotes; `print_data` writes the heading `Data:` while its emitted line writes
`Data :`. The sibling step `print_value` writes the same label `Result: ` as
its emitted line. -/
theorem printing_steps_executor_and_emitter (show_float to_string : CFloat → String)
    (config : Conf) (m : Model) :
    ((hello_world config m).cout = "Hello World!\n" ∧
      (hello_world_code config [] {}).1 = ["std::cout << \"Hello World !\\n\";"] ∧
      string_literals "std::cout << \"Hello World !\\n\";" = ["Hello World !\n"] ∧
      "Hello World!\n" ≠ "Hello World !\n") ∧
    ((print_number show_float config m).cout
        = "Number: \"" ++ show_float (Conf.get_value id config "num" ⟨0⟩) ++ "\"\n" ∧
      (print_number_code to_string config [] {}).1
        = ["std::cout<<\"Number: \"<<" ++ to_string (Conf.get_value id config "num" ⟨0⟩)
            ++ "<<\"\\n\";"] ∧
      string_literals ("std::cout<<\"Number: \"<<" ++ "42.000000" ++ "<<\"\\n\";")
        = ["Number: ", "\n"] ∧
      "Number: \"" ≠ "Number: ") ∧
    ((print_data show_float config m).cout
        = "Data:\n" ++ String.join (m._data.map (fun v => show_float v ++ "\n")) ∧
      (print_data_code config [] {}).1
        = ["std::cout << \"Data :\\n\";", "for (const auto& v : data)",
           "\tstd::cout << v << \"\\n\";"] ∧
      string_literals "std::cout << \"Data :\\n\";" = ["Data :\n"] ∧
      "Data:\n" ≠ "Data :\n") ∧
    ((print_value show_float config m).cout = "Result: " ++ show_float m._res ++ "\n" ∧
      (print_value_code config [] {}).1 = ["std::cout << \"Result: \" << res <<\"\\n\";"] ∧
      string_literals "std::cout << \"Result: \" << res <<\"\\n\";" = ["Result: ", "\n"]) := by
  refine ⟨⟨rfl, rfl, by decide, by decide⟩, ⟨rfl, rfl, by decide, by decide⟩,
    ⟨?_, rfl, by decide, by decide⟩, ⟨rfl, rfl, by decide⟩⟩
  show m._data.foldl (fun out v => out ++ show_float v ++ "\n") ("" ++ "Data:\n") = _
  simp only [String.append_assoc, foldl_write, String.empty_append]

/-! ## Braces of the inline artifact -/

theorem braces_append (a b : String) : braces (a ++ b) = braces a ++ braces b := by
  simp [braces, String.data_append]

theorem braces_join (l : List String) :
    braces (String.join l) = (l.map braces).flatten := by
  induction l with
  | nil => rfl
  | cons x rest ih => rw [join_cons, braces_append, ih]; rfl

theorem braces_lines (tabs : String) (htabs : braces tabs = []) (lines : List String) :
    braces (String.join (lines.map (fun line => tabs ++ line ++ "\n")))
      = braces (String.join lines) := by
  induction lines with
  | nil => rfl
  | cons x rest ih =>
    have hnl : braces "\n" = [] := by decide
    simp only [List.map_cons, join_cons, braces_append, ih, htabs, hnl, List.nil_append,
      List.append_nil]

theorem nesting_filter (depth : Nat) (l : List Char) :
    nesting depth (l.filter is_brace) = nesting depth l := by
  induction l generalizing depth with
  | nil => rfl
  | cons c rest ih =>
    by_cases h1 : c = Char.ofNat 123
    · subst h1
      have hb : is_brace (Char.ofNat 123) = true := by decide
      simp only [List.filter_cons, hb, if_true, nesting]
      exact ih _
    · by_cases h2 : c = Char.ofNat 125
      · subst h2
        have hb : is_brace (Char.ofNat 125) = true := by decide
        have hne : ¬ Char.ofNat 125 = Char.ofNat 123 := by decide
        simp only [List.filter_cons, hb, if_true, nesting, hne, if_false]
        cases depth with
        | zero => rfl
        | succ above => exact ih _
      · have hb : is_brace c = false := by
          simp [is_brace, h1, h2]
        simp only [List.filter_cons, hb, Bool.false_eq_true, if_false, nesting, h1, h2]
        exact ih _

theorem nesting_append (depth : Nat) (a b : List Char) :
    nesting depth (a ++ b) = (nesting depth a).bind (fun d => nesting d b) := by
  induction a generalizing depth with
  | nil => rfl
  | cons c rest ih =>
    simp only [List.cons_append, nesting]
    by_cases h1 : c = Char.ofNat 123
    · simp only [h1, if_true]
      exact ih _
    · by_cases h2 : c = Char.ofNat 125
      · simp only [h1, h2, if_true, if_false]
        cases depth with
        | zero => rfl
        | succ above => exact ih _
      · simp only [h1, h2, if_false]
        exact ih _

theorem nesting_shift (depth result : Nat) (l : List Char) (k : Nat)
    (h : nesting depth l = some result) : nesting (depth + k) l = some (result + k) := by
  induction l generalizing depth with
  | nil =>
    simp only [nesting] at h ⊢
    injection h with h
    rw [h]
  | cons c rest ih =>
    simp only [nesting] at h ⊢
    by_cases h1 : c = Char.ofNat 123
    · simp only [h1, if_true] at h ⊢
      have := ih (depth + 1) h
      rw [show depth + k + 1 = depth + 1 + k by omega]
      exact this
    · by_cases h2 : c = Char.ofNat 125
      · simp only [h1, h2, if_true, if_false] at h ⊢
        cases depth with
        | zero => cases h
        | succ above =>
          rw [show above + 1 + k = (above + k) + 1 by omega]
          exact ih above h
      · simp only [h1, h2, if_false] at h ⊢
        exact ih depth h

theorem braces_config_comments (tabs : String) (htabs : braces tabs = [])
    (show_float : CFloat → String) (c : Conf)
    (hc : ∀ kv ∈ c, brace_free kv.1 ∧ brace_free (show_float kv.2)) :
    braces (String.join (c.map (fun kv =>
      tabs ++ "// " ++ kv.1 ++ " : " ++ show_float kv.2 ++ "\n"))) = [] := by
  induction c with
  | nil => rfl
  | cons kv rest ih =>
    have hrest : ∀ e ∈ rest, brace_free e.1 ∧ brace_free (show_float e.2) :=
      fun e he => hc e (List.mem_cons_of_mem _ he)
    obtain ⟨hk, hv⟩ := hc kv (List.mem_cons_self _ _)
    have h1 : braces "// " = [] := by decide
    have h2 : braces " : " = [] := by decide
    have h3 : braces "\n" = [] := by decide
    unfold brace_free at hk hv
    simp only [List.map_cons, join_cons, braces_append, ih hrest, htabs, hk, hv, h1, h2, h3,
      List.append_nil]

theorem braces_abort_guard (tabs stop_variable : String) (htabs : braces tabs = [])
    (hvar : braces stop_variable = []) :
    braces (abort_guard tabs stop_variable) = [Char.ofNat 123, Char.ofNat 125] := by
  have h1 : braces "if (!" = [] := by decide
  have h2 : braces ") \x7b" = [Char.ofNat 123] := by decide
  have h3 : braces "\n" = [] := by decide
  have h4 : braces "\t" = [] := by decide
  have h5 : braces "// cleanup" = [] := by decide
  have h6 : braces "data.clear();" = [] := by decide
  have h7 : braces "data.shrink_to_fit();" = [] := by decide
  have h8 : braces "\treturn 0;" = [] := by decide
  have h9 : braces "\x7d" = [Char.ofNat 125] := by decide
  simp only [abort_guard, cleanup_lines, List.map_cons, List.map_nil, List.cons_append,
    List.nil_append, join_cons, join_nil, braces_append, htabs, hvar, h1, h2, h3, h4, h5, h6,
    h7, h8, h9, List.append_nil, List.nil_append, List.cons_append]
  rfl

theorem braces_inline_block (show_float : CFloat → String) (s : RecipeStepInstance)
    (hlabels : s.plain_labels show_float) :
    braces (inline_block show_float s) = block_braces s := by
  obtain ⟨hname, hconf, hvar⟩ := hlabels
  unfold brace_free at hname hvar
  have h1 : braces "\n" = [] := by decide
  have h2 : braces "\t\x7b" = [Char.ofNat 123] := by decide
  have h3 : braces "\t\x7d" = [Char.ofNat 125] := by decide
  have h4 : braces "// " = [] := by decide
  have h5 : braces "" = [] := by decide
  have ht1 : braces "\t" = [] := by decide
  have ht2 : braces "\t\t" = [] := by decide
  unfold inline_block inline_lead inline_code_text block_braces block_tabs
  cases hscope : (emitted s).2.needs_scope <;> cases hret : (described s).returns_stop
  · simp only [Bool.false_eq_true, if_false, braces_append,
      braces_config_comments "\t" ht1 show_float s._config hconf,
      braces_lines "\t" ht1, hname, h1, h4, h5, ht1, List.append_nil, List.nil_append]
  · simp only [Bool.false_eq_true, if_false, if_true, braces_append,
      braces_config_comments "\t" ht1 show_float s._config hconf,
      braces_lines "\t" ht1, braces_abort_guard "\t" _ ht1 hvar, hname, h1, h4, h5, ht1,
      List.append_nil, List.nil_append]
  · simp only [Bool.false_eq_true, if_false, if_true, braces_append,
      braces_config_comments "\t\t" ht2 show_float s._config hconf,
      braces_lines "\t\t" ht2, hname, h1, h2, h3, h4, h5, ht2, List.append_nil,
      List.nil_append, List.cons_append, List.append_assoc]
  · simp only [Bool.false_eq_true, if_false, if_true, braces_append,
      braces_config_comments "\t\t" ht2 show_float s._config hconf,
      braces_lines "\t\t" ht2, braces_abort_guard "\t\t" _ ht2 hvar, hname, h1, h2, h3, h4,
      h5, ht2, List.append_nil, List.nil_append, List.cons_append, List.append_assoc]

theorem braces_inline_head (timestamp : String) (htime : brace_free timestamp) :
    braces (inline_head timestamp) = [Char.ofNat 123] := by
  unfold brace_free at htime
  have hrest : braces
      ("\n#include<vector>\n#include<iostream>\n\nint main() \x7b\n\n"
        ++ "\tstd::vector<float> data;\n\tauto res = .0f;\n") = [Char.ofNat 123] := by decide
  have h1 : braces "// " = [] := by decide
  rw [inline_head_text, braces_append, braces_append, htime, hrest, h1]
  rfl

theorem braces_inline_tail : braces inline_tail = [Char.ofNat 125] := by
  decide

/-- The braces of the inline artifact, when the copied labels contain none:
the opening brace of `main`, the braces of the blocks in recipe order, the
closing brace of `main`. -/
theorem braces_create_code (timestamp : String) (show_float : CFloat → String) (r : Recipe)
    (htime : brace_free timestamp) (hlabels : ∀ s ∈ r._steps, s.plain_labels show_float) :
    braces (inline_head timestamp ++ String.join (r._steps.map (inline_block show_float))
        ++ inline_tail)
      = [Char.ofNat 123] ++ (r._steps.map block_braces).flatten ++ [Char.ofNat 125] := by
  rw [braces_append, braces_append, braces_inline_head timestamp htime, braces_inline_tail,
    braces_join, List.map_map]
  congr 2
  apply congrArg
  apply List.map_congr_left
  intro s hs
  exact braces_inline_block show_float s (hlabels s hs)

theorem nesting_open (depth : Nat) (l : List Char) :
    nesting depth (Char.ofNat 123 :: l) = nesting (depth + 1) l := by
  simp only [nesting, if_true]

theorem nesting_close (depth : Nat) (l : List Char) :
    nesting (depth + 1) (Char.ofNat 125 :: l) = nesting depth l := by
  have hne : ¬ (Char.ofNat 125 = Char.ofNat 123) := by decide
  simp only [nesting, hne, if_false, if_true]

/-- A block whose code lines are balanced leaves the depth unchanged. -/
theorem block_braces_balanced (s : RecipeStepInstance)
    (hcode : brace_balanced (String.join (emitted s).1)) (depth : Nat) :
    nesting depth (block_braces s) = some depth := by
  have hshift : ∀ k, nesting k (braces (String.join (emitted s).1)) = some k := by
    intro k
    have h0 : nesting 0 (braces (String.join (emitted s).1)) = some 0 := by
      unfold braces
      rw [nesting_filter]
      exact hcode
    have h := nesting_shift 0 0 _ k h0
    rw [Nat.zero_add] at h
    exact h
  have hend : ∀ k, nesting k [] = some k := fun k => rfl
  unfold block_braces
  rw [nesting_append, nesting_append, nesting_append]
  cases (emitted s).2.needs_scope <;> cases (described s).returns_stop <;>
    simp only [Bool.false_eq_true, if_false, if_true, hend, hshift, Option.some_bind,
      nesting_open, nesting_close]

/-- Balanced blocks in a row leave the depth unchanged. -/
theorem blocks_braces_balanced (steps : List RecipeStepInstance)
    (hcode : ∀ s ∈ steps, brace_balanced (String.join (emitted s).1)) (depth : Nat) :
    nesting depth (steps.map block_braces).flatten = some depth := by
  induction steps with
  | nil => rfl
  | cons s rest ih =>
    rw [List.map_cons, List.flatten_cons, nesting_append,
      block_braces_balanced s (hcode s (List.mem_cons_self _ _)) depth, Option.some_bind]
    exact ih (fun e he => hcode e (List.mem_cons_of_mem _ he))

theorem summing_recipe_generable : ∀ s ∈ summing_recipe._steps, s.generable := by
  intro s hs
  simp only [summing_recipe, List.mem_cons, List.mem_singleton, List.not_mem_nil,
    or_false] at hs
  rcases hs with h | h | h <;> subst h <;>
    exact ⟨rfl, rfl, rfl, by decide⟩

set_option maxRecDepth 100000 in
/-- C22, where the claim fails: the generator copies the name of the step and
the stop variable into the artifact as they are. For the recipe of one step
named `a}` whose emitted line is balanced, the closing brace of the name
comment is the one that closes `main`, and the last brace of the artifact has
no opening brace to match; for the recipe of one step whose stop variable
holds `{`, the artifact ends one level deep. Both instances can be handed to
the generator and their emitted code lines are balanced. -/
theorem create_code_braces_unbalanced :
    ((⟨brace_named_step, []⟩ : RecipeStepInstance).generable ∧
      brace_balanced (String.join (emitted ⟨brace_named_step, []⟩).1) ∧
      (create_code "T" show_bits { _steps := [⟨brace_named_step, []⟩] }).toOption
        = some ("// T\n#include<vector>\n#include<iostream>\n\nint main() \x7b\n\n"
            ++ "\tstd::vector<float> data;\n\tauto res = .0f;\n\n\t// a\x7d\n"
            ++ "\tstd::cout << \"Hello World !\\n\";\n\n\t// cleanup\n\tdata.clear();\n"
            ++ "\tdata.shrink_to_fit();\n\n\treturn 0;\n\x7d\n") ∧
      (create_code "T" show_bits { _steps := [⟨brace_named_step, []⟩] }).toOption.map
          (fun text => nesting 0 text.data) = some none) ∧
    ((⟨brace_variable_step, []⟩ : RecipeStepInstance).generable ∧
      brace_balanced (String.join (emitted ⟨brace_variable_step, []⟩).1) ∧
      (create_code "T" show_bits { _steps := [⟨brace_variable_step, []⟩] }).toOption.map
          (fun text => nesting 0 text.data) = some (some 1)) := by
  refine ⟨⟨⟨rfl, rfl, rfl, by decide⟩, ?_, by decide, by decide⟩,
    ⟨⟨rfl, rfl, rfl, by decide⟩, ?_, by decide⟩⟩
  · unfold brace_balanced
    decide
  · unfold brace_balanced
    decide

/-- C22 as amended: for a recipe of instances that `create_code` can process,
when the labels it copies into comments and guards (time stamp, step names,
configuration keys and rendered values, stop variables) contain no brace,
`create_code` returns a text whose braces are, in order: the opening brace of
`main`; for each block in recipe order the opening scope brace exactly when
the emitter asked for a scope, the braces of the emitted code lines, the
opening and closing brace of the abort guard exactly when the step can stop,
and the closing scope brace exactly when the emitter asked for a scope; the
closing brace of `main`.  A block whose code lines are balanced returns to the
depth at which it starts, and when the code lines of every block are balanced
the whole text is balanced. -/
theorem create_code_braces_balanced (timestamp : String) (show_float : CFloat → String)
    (r : Recipe) (hsteps : ∀ s ∈ r._steps, s.generable) (htime : brace_free timestamp)
    (hlabels : ∀ s ∈ r._steps, s.plain_labels show_float) :
    ∃ text, create_code timestamp show_float r = .ok text ∧
      braces text
        = [Char.ofNat 123] ++ (r._steps.map block_braces).flatten ++ [Char.ofNat 125] ∧
      (∀ s ∈ r._steps, ∀ depth, brace_balanced (String.join (emitted s).1) →
        nesting depth (block_braces s) = some depth) ∧
      ((∀ s ∈ r._steps, brace_balanced (String.join (emitted s).1)) →
        brace_balanced text) := by
  refine ⟨_, create_code_eq timestamp show_float r hsteps,
    braces_create_code timestamp show_float r htime hlabels,
    fun s _ depth h => block_braces_balanced s h depth, ?_⟩
  intro hcode
  unfold brace_balanced
  rw [← nesting_filter]
  have hbraces := braces_create_code timestamp show_float r htime hlabels
  unfold braces at hbraces
  rw [hbraces, List.append_assoc, List.singleton_append, nesting_open, nesting_append,
    blocks_braces_balanced r._steps hcode, Option.some_bind, nesting_close]
  rfl

set_option maxRecDepth 100000 in
/-- Witness for C22: in the artifact of a configured `print_number`, `sum`
and `check_data` the braces are those of `main`, of the loop of `sum`, and of
the scope of `check_data` around its abort guard, and the text is balanced. -/
theorem create_code_braces_balanced_witness :
    (∀ s ∈ summing_recipe._steps, s.generable) ∧ brace_free "T" ∧
      (∀ s ∈ summing_recipe._steps, s.plain_labels show_bits) ∧
      ∃ text, create_code "T" show_bits summing_recipe = .ok text ∧
        braces text
          = [Char.ofNat 123, Char.ofNat 123, Char.ofNat 125, Char.ofNat 123, Char.ofNat 123,
              Char.ofNat 125, Char.ofNat 125, Char.ofNat 125] ∧
        brace_balanced text := by
  have htime : brace_free "T" := by unfold brace_free; decide
  have hlabels : ∀ s ∈ summing_recipe._steps, s.plain_labels show_bits := by
    intro s hs
    simp only [summing_recipe, List.mem_cons, List.mem_singleton, List.not_mem_nil,
      or_false] at hs
    rcases hs with h | h | h <;> subst h <;>
      unfold RecipeStepInstance.plain_labels brace_free <;> decide
  have hcode : ∀ s ∈ summing_recipe._steps, brace_balanced (String.join (emitted s).1) := by
    intro s hs
    simp only [summing_recipe, List.mem_cons, List.mem_singleton, List.not_mem_nil,
      or_false] at hs
    rcases hs with h | h | h <;> subst h <;> unfold brace_balanced <;> decide
  obtain ⟨text, hok, hbraces, _, hbalanced⟩ :=
    create_code_braces_balanced "T" show_bits summing_recipe summing_recipe_generable htime
      hlabels
  refine ⟨summing_recipe_generable, htime, hlabels, text, hok, ?_, hbalanced hcode⟩
  rw [hbraces]
  decide

/-! ## The example recipe of `main` -/

end Lab
